import Mathlib

/-!
# Verification of the APInFly context compiler and query translator

This development is a shallow embedding, in Lean 4, of the core of the
APInFly code base (`src/api/APIContext.py`, `src/api/APIController.py`,
`src/db/AliasName.py`, `src/db/DatabaseTable.py`, `src/db/DatabaseField.py`),
together with proofs about the embedded operations.

Conventions used throughout the embedding:

* Python `str` is `String`; Python string operations (`in`, `replace`,
  slicing) are re-implemented over `String.data` character lists so that all
  definitions compute by kernel reduction.
* Python dictionaries are insertion-ordered association structures (`Model`,
  `Packed`, plain `List (String × _)`), matching CPython's guaranteed
  insertion order on iteration.  All theorems that depend on dictionary key
  behaviour assume the keys are pairwise distinct, which is automatic for a
  real Python dict.
* Exceptions are modelled with `Except PyError`.
* The database backend (`dbc.query`) is an opaque parameter
  `dbQuery : String → List (List Int)`; rows are scalar tuples, scalars are
  modelled as `Int`.
* `gen_id` on a table (a `uuid` generator in the source) is modelled as a
  deterministic per-table `String`: within the operations verified here each
  table's generator is consulted at most once per branch, and only the fact
  that the *same* call result is reused in two places matters.
-/

namespace APInFly

/-! ## Python string primitives, re-implemented over character lists -/

/-- `listStartsWith pat l` : `pat` is a prefix of `l` (character lists). -/
def listStartsWith : List Char → List Char → Bool
  | [], _ => true
  | _ :: _, [] => false
  | a :: as, b :: bs => a == b && listStartsWith as bs

/-- Python's substring test `pat in s`, on character lists. -/
def listHasSub (pat : List Char) : List Char → Bool
  | [] => listStartsWith pat []
  | c :: rest => listStartsWith pat (c :: rest) || listHasSub pat rest

/-- Python's `pat in s` on strings. -/
def strContains (s pat : String) : Bool :=
  listHasSub pat.data s.data

/-- Python's `s[:-n]` (for `n ≤ len s`; for larger `n` yields `""`, as in Python). -/
def strDropRight (s : String) (n : Nat) : String :=
  String.mk (s.data.take (s.data.length - n))

/-- Python's `s[-n:]` (the last `n` characters). -/
def strTakeRight (s : String) (n : Nat) : String :=
  String.mk (s.data.drop (s.data.length - n))

/-- Fuel-driven worker for `strReplace`; fuel bounds the number of scanned
characters so the recursion is structural and kernel-computable. -/
def listReplaceAux (pat rep : List Char) : Nat → List Char → List Char
  | 0, l => l
  | _ + 1, [] => []
  | fuel + 1, c :: rest =>
    if pat.length != 0 && listStartsWith pat (c :: rest) then
      rep ++ listReplaceAux pat rep fuel (List.drop (pat.length - 1) rest)
    else
      c :: listReplaceAux pat rep fuel rest

/-- Python's `s.replace(pat, rep)` for a non-empty pattern: every
non-overlapping occurrence, scanned left to right, is replaced. -/
def strReplace (s pat rep : String) : String :=
  String.mk (listReplaceAux pat.data rep.data s.data.length s.data)

/-- Python's `str.join`-free concatenation helper: concatenate a list of
strings (used to model repeated `sql += piece` loops). -/
def strConcat (l : List String) : String :=
  l.foldl (fun a b => a ++ b) ""

/-- Digits-only decimal parser used to model Python's `int(...)` on the
numeric strings the verified paths instantiate.  (`int` raises `ValueError`
on malformed input; every theorem below applies it to a decimal literal.) -/
def pyIntAux : List Char → Nat
  | [] => 0
  | c :: rest => (c.toNat - 48) * (10 ^ rest.length) + pyIntAux rest

/-- Python `int(s)` for the decimal strings used in the claims. -/
def pyInt (s : String) : Int :=
  match s.data with
  | '-' :: rest => -(pyIntAux rest : Int)
  | l => (pyIntAux l : Int)

/-- Python list indexing `l[i]` with negative-index wrap-around.  Out-of-range
access raises `IndexError` in Python; it is modelled by the default `0`
(no verified path performs an out-of-range access). -/
def pyIndex (l : List Int) (i : Int) : Int :=
  if i < 0 then l.getD (l.length - i.natAbs) 0 else l.getD i.toNat 0

/-- Python slice `l[k:]` (`k` may be negative, counting from the end). -/
def pySliceFrom {α : Type} (l : List α) (k : Int) : List α :=
  let s : Int := if k < 0 then max 0 ((l.length : Int) + k) else k
  l.drop s.toNat

/-! ## Error model -/

/-- The Python exceptions raised by the embedded code paths. -/
inductive PyError : Type where
  | typeError : String → PyError
  | valueError : String → PyError
  | nameError : String → PyError
  | attributeError : String → PyError
  | keyError : String → PyError
deriving DecidableEq

/-! ## Schema model (`db/Database.py`, `db/DatabaseTable.py`, `db/DatabaseField.py`)

A schema reachable from one root table is a finite tree: a table holds its
fields in declared order, and a foreign-key field carries its single-hop
`relation` — the referenced column's name together with the referenced table
(`relation.name` and `relation.parent` in the source).  Cyclic schemas are
not representable; on them the source's `gen_model` recursion does not
terminate (spec §9 flags the missing cycle guard), so every claim here is
about the acyclic case.

Each field carries a `fid : Nat` which models the CPython object identity of
the schema-global `DatabaseField` instance; it is ignored by the pure
context compiler and used only by the heap-level frame analysis of
`gen_model`'s mutation of `sql_name` (claim C6). -/

mutual
inductive Tbl : Type where
  /-- database name, table name, `gen_id()` result, children in declared order. -/
  | mk : String → String → String → FldList → Tbl
inductive FldList : Type where
  | fnil : FldList
  | fcons : Fld → FldList → FldList
inductive Fld : Type where
  /-- identity, name, typ, nullable, key, default, relation. -/
  | mk : Nat → String → String → Bool → String → Bool → RelOpt → Fld
inductive RelOpt : Type where
  | norel : RelOpt
  /-- referenced column name (`relation.name`) and referenced table (`relation.parent`). -/
  | rel : String → Tbl → RelOpt
end

def Tbl.dbName : Tbl → String
  | .mk d _ _ _ => d

def Tbl.tbName : Tbl → String
  | .mk _ n _ _ => n

def Tbl.genId : Tbl → String
  | .mk _ _ g _ => g

def Tbl.children : Tbl → FldList
  | .mk _ _ _ fs => fs

/-- `DatabaseTable.fq_name` : `<database>.<table>`. -/
def Tbl.fq (t : Tbl) : String :=
  t.dbName ++ "." ++ t.tbName

def Fld.fid : Fld → Nat
  | .mk i _ _ _ _ _ _ => i

def Fld.name : Fld → String
  | .mk _ n _ _ _ _ _ => n

def Fld.typ : Fld → String
  | .mk _ _ t _ _ _ _ => t

def Fld.nullable : Fld → Bool
  | .mk _ _ _ b _ _ _ => b

def Fld.key : Fld → String
  | .mk _ _ _ _ k _ _ => k

def Fld.dflt : Fld → Bool
  | .mk _ _ _ _ _ d _ => d

def Fld.relation : Fld → RelOpt
  | .mk _ _ _ _ _ _ r => r

/-- `DatabaseField.fq_name` : `<database>.<table>.<column>` for a field of
the table named `tbN` in database `dbN`. -/
def fldFq (dbN tbN : String) (f : Fld) : String :=
  dbN ++ "." ++ tbN ++ "." ++ f.name

/-- The `fq_name` of the column a relation references
(`relation.fq_name` in the source). -/
def RelOpt.refFq : RelOpt → Option String
  | .norel => none
  | .rel rn rt => some (rt.dbName ++ "." ++ rt.tbName ++ "." ++ rn)

def FldList.toList : FldList → List Fld
  | .fnil => []
  | .fcons f rest => f :: rest.toList

/-! ## Context model (`api/APIContext.py`) -/

/-- A field as mounted into a context's model: the result of
`DatabaseField.clone()` followed by the `sql_name` / `api_name` assignments
performed by `gen_model` / `branch_rel`.  `parentGenId` models
`field.parent.gen_id()` — the clone keeps the original schema table as its
`parent`, whose generator agrees with the owning table's. -/
structure CField : Type where
  name : String
  fqName : String
  apiName : String
  sqlName : String
  typ : String
  nullable : Bool
  key : String
  dflt : Bool
  relation : RelOpt
  parentGenId : String

/-! The context `model` dict: string keys in insertion order; a value is
either a mounted field or a nested `<fq_name>_branch` sub-dict. -/

mutual
inductive MVal : Type where
  | fld : CField → MVal
  | br : Model → MVal
inductive Model : Type where
  | mnil : Model
  | mcons : String → MVal → Model → Model
end

def Model.hasKey : Model → String → Bool
  | .mnil, _ => false
  | .mcons k _ rest, key => k == key || rest.hasKey key

def Model.find? : Model → String → Option MVal
  | .mnil, _ => none
  | .mcons k v rest, key => if k == key then some v else rest.find? key

def Model.keys : Model → List String
  | .mnil => []
  | .mcons k _ rest => k :: rest.keys

def Model.append : Model → Model → Model
  | .mnil, m => m
  | .mcons k v rest, m => .mcons k v (rest.append m)

/-- The entry a table clone contributes to `APIContext.tables`:
`fq_name`, the assigned `db_name` alias, and the table's `gen_id()` result. -/
structure TblInst : Type where
  fqName : String
  dbName : String
  genId : String
deriving DecidableEq

/-- The mutable compiler state threaded through `gen_model` / `branch_rel`:
`self.tables` (beyond the model tree) and `self.joins`.
(`self.reqs` is not modelled: no operation verified here reads it.) -/
structure GenState : Type where
  tables : List TblInst
  joins : List String
deriving DecidableEq

/-- `DatabaseField.clone()` as performed when mounting a field of table
`dbN.tbN` (alias `tid`, generator `gid`) into a context model with
display-name prefix `pref` (`""` at the root): the clone keeps name, type,
nullability, key kind, default and relation; `sql_name` is assigned
`<tid>.<name>` and `api_name` is the prefixed field name. -/
def mkCField (dbN tbN gid tid pref : String) (f : Fld) : CField :=
  { name := f.name
    fqName := fldFq dbN tbN f
    apiName := pref ++ f.name
    sqlName := tid ++ "." ++ f.name
    typ := f.typ
    nullable := f.nullable
    key := f.key
    dflt := f.dflt
    relation := f.relation
    parentGenId := gid }

mutual
/-- The per-field loop shared by `APIContext.gen_model` (lines 58–67, with
`pref = ""` and `tid = "t1"`) and `APIContext.branch_rel` (lines 84–98):
mount a clone of each field under its `fq_name`; for a foreign-key field,
record the join clause `<tid>.<name> = t<len(tables)+1>.<relation.name>`,
add the sibling `<fq_name>_branch` entry and expand the referenced table.
(`gen_model` additionally writes `sql_name` back onto the *original* schema
field — a heap effect modelled separately by `heapRootFields` below.) -/
def genFields (dbN tbN gid tid pref : String) (fs : FldList) (st : GenState) :
    Model × GenState :=
  match fs with
  | .fnil => (.mnil, st)
  | .fcons f rest =>
    match f with
    | .mk _ _ _ _ _ _ frel =>
      let fq := fldFq dbN tbN f
      let cf := mkCField dbN tbN gid tid pref f
      match frel with
      | .norel =>
        let r := genFields dbN tbN gid tid pref rest st
        (.mcons fq (.fld cf) r.1, r.2)
      | .rel rn rt =>
        let joiner := tid ++ "." ++ f.name ++ " = t" ++
          toString (st.tables.length + 1) ++ "." ++ rn
        let st1 : GenState := { st with joins := st.joins ++ [joiner] }
        let b := branchRel (cf.apiName ++ "_") rt st1
        let r := genFields dbN tbN gid tid pref rest b.2
        (.mcons fq (.fld cf) (.mcons (fq ++ "_branch") (.br b.1) r.1), r.2)

/-- `APIContext.branch_rel`, entry part (lines 76–82): clone the referenced
table, append it to `self.tables` with the next sequential alias
`t<len(tables)>`, then expand its fields with the accumulated display-name
prefix. -/
def branchRel (pref : String) (rt : Tbl) (st : GenState) : Model × GenState :=
  match rt with
  | .mk dbN tbN gid fs =>
    let tid := "t" ++ toString (st.tables.length + 1)
    let st1 : GenState :=
      { st with tables := st.tables ++ [⟨dbN ++ "." ++ tbN, tid, gid⟩] }
    genFields dbN tbN gid tid pref fs st1
end

/-- The compiled context: `name`, `tables` (index 0 = root), `joins`, `model`
(the `schema` attribute is not mounted — no verified operation reads it). -/
structure APIContext : Type where
  name : String
  tables : List TblInst
  joins : List String
  model : Model

/-- `APIContext.__init__` + `gen_model`: clone the root table, alias it `t1`,
mount every field and expand every relation.  The context name is
`table.fq_name.replace('.', '_')`. -/
def mkContext (t : Tbl) : APIContext :=
  match t with
  | .mk dbN tbN gid fs =>
    let st0 : GenState := { tables := [⟨dbN ++ "." ++ tbN, "t1", gid⟩], joins := [] }
    let r := genFields dbN tbN gid "t1" "" fs st0
    { name := strReplace (dbN ++ "." ++ tbN) "." "_"
      tables := r.2.tables
      joins := r.2.joins
      model := r.1 }

/-! ## Flattening (`APIContext.flat_fields`, lines 136–161) -/

/-- The shared walk of `flat_fields` / `__flat_fields_rec`: iterate a dict
level in insertion order; a key containing no `_branch` and having no
`<key>_branch` sibling in the *whole* level contributes its field, a key
containing `_branch` triggers recursion into its sub-dict.  A foreign-key
trigger key (no `_branch` inside it, but with a `_branch` sibling) falls
into neither case and contributes nothing.
The two impossible-for-compiled-models cases (a sub-dict stored under a
plain key with no sibling, or a field stored under a `_branch` key) are
mapped to no contribution; in Python the first appends a non-field object
and the second raises `TypeError` — both are excluded by the name
hypotheses of every theorem below. -/
def flatAux (whole : Model) : Model → List CField
  | .mnil => []
  | .mcons k v rest =>
    (if !strContains k "_branch" && !whole.hasKey (k ++ "_branch") then
      match v with
      | .fld f => [f]
      | .br _ => []
    else if strContains k "_branch" then
      match v with
      | .br b => flatAux b b
      | .fld _ => []
    else []) ++ flatAux whole rest

/-- `APIContext.flat_fields`. -/
def flat_fields (c : APIContext) : List CField :=
  flatAux c.model c.model

/-! ## SQL skeleton (`APIContext.get_sql_parts`, lines 164–187) -/

/-- `APIContext.get_sql_parts`: `SELECT` list from the flattened fields'
`sql_name`s, `FROM` list from the table clones' `fq_name AS db_name`, and
the join conjuncts `AND`-chained — each piece built by `+=` with a trailing
separator then sliced off, the `WHERE` slice happening only when there is at
least one join. -/
def get_sql_parts (c : APIContext) : String :=
  let sql1 := "SELECT \n\t" ++
    strConcat ((flat_fields c).map (fun f => f.sqlName ++ ", "))
  let sql2 := strDropRight sql1 2
  let sql3 := sql2 ++ " \nFROM\n\t" ++
    strConcat (c.tables.map (fun t => t.fqName ++ " AS " ++ t.dbName ++ ", "))
  let sql4 := strDropRight sql3 2
  let sql5 := sql4 ++ " \nWHERE\n\t" ++
    strConcat (c.joins.map (fun j => j ++ " AND "))
  if c.joins.length > 0 then strDropRight sql5 4 else sql5

/-- Assembly of `get_sql_parts` from an explicit SELECT column list: used to
state that the emitted column order is exactly the flattened field order. -/
def sqlFromColumns (cols : List String) (tables : List TblInst)
    (joins : List String) : String :=
  let sql1 := "SELECT \n\t" ++ strConcat (cols.map (fun c => c ++ ", "))
  let sql2 := strDropRight sql1 2
  let sql3 := sql2 ++ " \nFROM\n\t" ++
    strConcat (tables.map (fun t => t.fqName ++ " AS " ++ t.dbName ++ ", "))
  let sql4 := strDropRight sql3 2
  let sql5 := sql4 ++ " \nWHERE\n\t" ++
    strConcat (joins.map (fun j => j ++ " AND "))
  if joins.length > 0 then strDropRight sql5 4 else sql5

/-! ## A concrete schema (the spec §8 example) used by witnesses -/

/-- `shop.customers` with a primary key `id` and a `name` column. -/
def customersTbl : Tbl :=
  .mk "shop" "customers" "cust-uuid-1"
    (.fcons (.mk 2 "id" "varchar(32)" false "PRI" false .norel)
      (.fcons (.mk 3 "name" "varchar(64)" false "" false .norel) .fnil))

/-- `shop.orders` with primary key `id` and foreign key
`customer_id → shop.customers.id`. -/
def ordersTbl : Tbl :=
  .mk "shop" "orders" "ord-uuid-1"
    (.fcons (.mk 0 "id" "int(11)" false "PRI" false .norel)
      (.fcons (.mk 1 "customer_id" "varchar(32)" false "MUL" false
        (.rel "id" customersTbl)) .fnil))

/-- The compiled `shop.orders` context. -/
def ordersCtx : APIContext := mkContext ordersTbl

/-- A single-table context (no joins): the compiled `shop.customers`. -/
def customersCtx : APIContext := mkContext customersTbl

/-! ## Typed structure view (`APIContext.types_view`, lines 101–133)

The nested skeleton of a context: a dict from display names to type tags,
with a nested dict in place of each foreign-key trigger field.  The walk of
`types_view` / `__types_rec` looks the `<key>_branch` sub-dict up by key, so
the recursion is by well-founded lookup fusion (`tvLookup`). -/

mutual
inductive TVal : Type where
  | leaf : String → TVal
  | obj : TObj → TVal
inductive TObj : Type where
  | tnil : TObj
  | tcons : String → TVal → TObj → TObj
end

mutual
/-- Shared walk of `types_view` / `__types_rec`: a plain key with no
`_branch` sibling contributes `api_name ↦ typ`; a plain key *with* a
`_branch` sibling contributes `api_name ↦ <recursion into the sub-dict>`;
`_branch` keys themselves contribute nothing.  As with `flatAux`, the cases
impossible for compiled models (a sub-dict under a plain key without
sibling — `AttributeError` in Python —, a field under a matched `_branch`
key — `TypeError`) contribute nothing. -/
def tvIter (whole : Model) (m : Model) : TObj :=
  match m with
  | .mnil => .tnil
  | .mcons k v rest =>
    if !strContains k "_branch" && !whole.hasKey (k ++ "_branch") then
      match v with
      | .fld f => .tcons f.apiName (.leaf f.typ) (tvIter whole rest)
      | .br _ => tvIter whole rest
    else if !strContains k "_branch" then
      match v with
      | .fld f => .tcons f.apiName (.obj (tvLookup whole (k ++ "_branch"))) (tvIter whole rest)
      | .br _ => tvIter whole rest
    else tvIter whole rest
  termination_by (sizeOf whole, 1, sizeOf m)
/-- Lookup of `model[key + '_branch']` fused with the recursive descent of
`__types_rec` into the found sub-dict. -/
def tvLookup (search : Model) (key : String) : TObj :=
  match search with
  | .mnil => .tnil
  | .mcons k v rest =>
    if k == key then
      match v with
      | .br b => tvIter b b
      | .fld _ => .tnil
    else tvLookup rest key
  termination_by (sizeOf search, 0, 0)
end

/-- `APIContext.types_view`. -/
def types_view (m : Model) : TObj :=
  tvIter m m

/-! ## Row unpacking (`APIContext.unpack_single`, lines 302–336) -/

/-- The loop `ind = -1; for f in fields: if f.api_name.name == key: ind =
fields.index(f)`: `fields.index(f)` compares by object identity, so it
returns the loop position of `f` itself; the final `ind` is the *last*
position whose display name matches (or `-1` when none does). -/
def lastMatchIdxAux (key : String) : Nat → Int → List CField → Int
  | _, acc, [] => acc
  | i, acc, f :: rest =>
    lastMatchIdxAux key (i + 1) (if f.apiName == key then (i : Int) else acc) rest

def lastMatchIdx (fields : List CField) (key : String) : Int :=
  lastMatchIdxAux key 0 (-1) fields

/-! The unpacked payload: nested display-name dict with scalar leaves. -/

mutual
inductive UVal : Type where
  | leaf : Int → UVal
  | obj : UObj → UVal
inductive UObj : Type where
  | unil : UObj
  | ucons : String → UVal → UObj → UObj
end

/-- Replace every scalar slot of the `types_view` skeleton by the row value
at the `lastMatchIdx` position of its display name (the in-place mutation of
`structure` in the source, rebuilt functionally). -/
def unpackObj (fields : List CField) (values : List Int) : TObj → UObj
  | .tnil => .unil
  | .tcons k (.leaf _) rest =>
    .ucons k (.leaf (pyIndex values (lastMatchIdx fields k))) (unpackObj fields values rest)
  | .tcons k (.obj b) rest =>
    .ucons k (.obj (unpackObj fields values b)) (unpackObj fields values rest)

/-- `APIContext.unpack_single`. -/
def unpack_single (c : APIContext) (result : List Int) : UObj :=
  unpackObj (flat_fields c) result (types_view c.model)

/-- Depth-first list of the leaf entries of an unpacked payload. -/
def uLeaves : UObj → List (String × Int)
  | .unil => []
  | .ucons k (.leaf v) rest => (k, v) :: uLeaves rest
  | .ucons _ (.obj b) rest => uLeaves b ++ uLeaves rest

/-! ## Controller (`api/APIController.py`) -/

/-- `NONSP_PARAMS`: reserved parameters not specific to a context. -/
def NONSP_PARAMS : List String := ["order_by", "order_dir", "page", "q"]

/-- A controller response payload: an error/empty string, a list of unpacked
objects (`query_multiple`), or one unpacked object (`query_single`). -/
inductive ApiResp : Type where
  | err : String → ApiResp
  | items : List UObj → ApiResp
  | obj : UObj → ApiResp

/-- `APIController`: the backend query channel, the compiled contexts, and
the page size (`0` disables paging). -/
structure APIController : Type where
  dbQuery : String → List (List Int)
  contexts : List APIContext
  page_lim : Int

/-- Context resolution `for c in self.contexts: if c.name == context_name:
context = c` — the *last* match wins. -/
def findContext (cs : List APIContext) (nm : String) : Option APIContext :=
  cs.foldl (fun acc c => if c.name == nm then some c else acc) none

/-- Python `key in args`. -/
def argsHasKey (args : List (String × String)) (k : String) : Bool :=
  args.any (fun p => p.1 == k)

/-- Python `args[key]` (`KeyError` on a missing key; modelled by `""` — every
use below is guarded by `argsHasKey`). -/
def argsGet (args : List (String × String)) (k : String) : String :=
  ((args.find? (fun p => p.1 == k)).map (fun p => p.2)).getD ""

/-- Parameter-type classification of a field's raw type tag
(`context_query_multiple`, lines 79–88). -/
def paramTypeOf (typ : String) : String :=
  if strContains typ "char" || strContains typ "text" then "str"
  else if strContains typ "tinyint" then "bool"
  else if strContains typ "int" then "int"
  else if strContains typ "float" || strContains typ "real" then "float"
  else "any"

/-- `APIController.__comp_to_symbol`. -/
def compToSymbol : String → Option String
  | "EQ" => some " = "
  | "LIKE" => some " LIKE "
  | "GT" => some " > "
  | "LT" => some " < "
  | "GTE" => some " >= "
  | "LTE" => some " <= "
  | "NE" => some " <> "
  | _ => none

/-- The loop `for f in fields: if f.api_name.name == key: this_field = f` —
the *last* match wins. -/
def lastFieldMatch (fields : List CField) (key : String) : Option CField :=
  fields.foldl (fun acc f => if f.apiName == key then some f else acc) none

/-- The structured-filter loop of `context_query_multiple` (lines 118–143):
for each arg key naming a field, append `field <op> value AND ` to the query
(with string-typed values quoted and `LIKE` values `%`-wrapped), or return
an early error response for a bad comparator token.  Lines 133–135
(`key.replace('_comp')`) are unreachable: the loop guard already excludes keys
containing `_comp`, so `ind` always comes from line 136. -/
def applyFilters (fields : List CField) (valid_params param_types : List String)
    (allArgs : List (String × String)) (sql : String) :
    List (String × String) → Sum (String × Int) String
  | [] => .inr sql
  | (key, v) :: rest =>
    if !strContains key "_comp" && valid_params.contains key then
      let comp_str : Option String :=
        if argsHasKey allArgs (key ++ "_comp") then
          compToSymbol (argsGet allArgs (key ++ "_comp"))
        else some " = "
      match comp_str with
      | none =>
        .inl ("Bad comparator value for '" ++ key ++ "_comp': '" ++
          argsGet allArgs (key ++ "_comp") ++ "'", 400)
      | some cs =>
        match lastFieldMatch fields key with
        | none => .inl ("Cannot find parameter field: '" ++ key ++ "'", 500)
        | some this_field =>
          let ind := valid_params.indexOf key
          let ty := param_types.getD ind "any"
          let piece :=
            if ty == "str" then
              if cs == " LIKE " then
                this_field.sqlName ++ cs ++ "\"%" ++ v ++ "%\" AND "
              else
                this_field.sqlName ++ cs ++ "\"" ++ v ++ "\" AND "
            else
              this_field.sqlName ++ cs ++ v ++ " AND "
          applyFilters fields valid_params param_types allArgs (sql ++ piece) rest
    else
      applyFilters fields valid_params param_types allArgs sql rest

/-- `APIController.context_query_multiple`. -/
def context_query_multiple (ctl : APIController) (context_name : String)
    (args : List (String × String)) : ApiResp × Int :=
  match findContext ctl.contexts context_name with
  | none => (.err ("Bad model/context requested: '" ++ context_name ++ "'"), 404)
  | some context =>
    if context.tables.length < 1 then
      (.err ("Bad model/context processing: '" ++ context_name ++ "'"), 500)
    else if argsHasKey args "page" && ctl.page_lim == 0 then
      (.err "Bad 'page' parameter, api not using paging", 400)
    else if !argsHasKey args "page" && ctl.page_lim != 0 then
      (.err "Missing 'page' parameter, api requires paging", 400)
    else
      let fields := flat_fields context
      let valid_params := fields.map (fun f => f.apiName)
      let param_types := fields.map (fun f => paramTypeOf f.typ)
      let sql0 := get_sql_parts context ++
        (if context.joins.length != 0 then " \n\tAND " else "")
      let filtered : Sum (String × Int) String :=
        if argsHasKey args "q" then
          match args.find? (fun p => !NONSP_PARAMS.contains p.1) with
          | some p => .inl ("Bad parameters for 'q': \"" ++ p.1 ++ "\"", 400)
          | none =>
            let q := argsGet args "q"
            let sqlq := sql0 ++ "(" ++
              strConcat (fields.map (fun f => f.sqlName ++ " LIKE \"%" ++ q ++ "%\" OR "))
            let sqlq := if strTakeRight sqlq 3 == "OR " then strDropRight sqlq 4 else sqlq
            .inr (sqlq ++ ")")
        else
          match args.find? (fun p =>
              !valid_params.contains p.1 &&
              !valid_params.contains (strReplace p.1 "_comp" "") &&
              !NONSP_PARAMS.contains p.1) with
          | some p => .inl ("Bad parameter: \"" ++ p.1 ++ "\"", 400)
          | none =>
            match applyFilters fields valid_params param_types args sql0 args with
            | .inl e => .inl e
            | .inr s => .inr (if strTakeRight s 4 == "AND " then strDropRight s 5 else s)
      match filtered with
      | .inl e => (.err e.1, e.2)
      | .inr sql1 =>
        let ordered : Sum (String × Int) String :=
          if argsHasKey args "order_by" || argsHasKey args "order_dir" then
            if argsHasKey args "order_by" && argsHasKey args "order_dir" then
              match lastFieldMatch fields (argsGet args "order_by") with
              | none => .inl ("Bad parameter: 'order_by' not a valid field", 400)
              | some this_f =>
                if !(["ASC", "DESC"].contains (argsGet args "order_dir").toUpper) then
                  .inl ("Bad parameter: 'order_dir' not a valid value", 400)
                else
                  .inr (sql1 ++ "\nORDER BY " ++ this_f.sqlName ++ " " ++
                    (argsGet args "order_dir").toUpper)
            else
              .inl ("Bad parameters: 'order_by' and 'order_dir' must both be present", 400)
          else .inr sql1
        match ordered with
        | .inl e => (.err e.1, e.2)
        | .inr sql2 =>
          let sql3 :=
            if argsHasKey args "page" && ctl.page_lim != 0 then
              sql2 ++ "\nLIMIT " ++ toString (pyInt (argsGet args "page") * ctl.page_lim) ++ ";"
            else sql2 ++ ";"
          let result := ctl.dbQuery sql3
          if result.length == 0 then (.err "", 404)
          else
            let results := result.map (fun row => unpack_single context row)
            if argsHasKey args "page" && ctl.page_lim != 0 then
              let mn : Int := ctl.page_lim * (pyInt (argsGet args "page") - 1)
              let mx : Int := pyInt (argsGet args "page") * ctl.page_lim - 1
              if mn ≥ (results.length : Int) || mx ≥ (results.length : Int) then
                (.items [], 404)
              else
                (.items (pySliceFrom results (-1 * ctl.page_lim)), 200)
            else (.items results, 200)

/-- The primary-key scan of `context_query_single` (lines 262–267): iterate
the top level of the model in insertion order; every non-dict entry whose
`key` equals `'PRI'` overwrites `key_field` — the last one wins. -/
def findKeyFieldAux (acc : Option CField) : Model → Option CField
  | .mnil => acc
  | .mcons _ v rest =>
    match v with
    | .fld f => findKeyFieldAux (if f.key == "PRI" then some f else acc) rest
    | .br _ => findKeyFieldAux acc rest

def findKeyField (m : Model) : Option CField :=
  findKeyFieldAux none m

/-- The lookup query of `context_query_single` (lines 272–278): the context
skeleton, a connecting `AND` if there are joins, and a primary-key equality
predicate quoted iff the key's type tag contains `varchar`. -/
def query_single_sql (c : APIContext) (kf : CField) (id : String) : String :=
  let s := get_sql_parts c ++ (if c.joins.length != 0 then " \n\tAND " else "")
  if strContains kf.typ "varchar" then s ++ kf.sqlName ++ "=\"" ++ id ++ "\";"
  else s ++ kf.sqlName ++ "=" ++ id ++ ";"

/-- The result dispatch of `context_query_single` (lines 280–288). -/
def querySingleResult (ctl : APIController) (c : APIContext) (kf : CField)
    (id : String) : ApiResp × Int :=
  let result := ctl.dbQuery (query_single_sql c kf id)
  if result.length == 0 then (.err "", 404)
  else if result.length == 1 then (.obj (unpack_single c (result.getD 0 [])), 200)
  else (.err "Found more than expected contexts", 500)

/-- `APIController.context_query_single`. -/
def context_query_single (ctl : APIController) (context_name : String)
    (id : String) : ApiResp × Int :=
  match findContext ctl.contexts context_name with
  | none => (.err ("Bad model/context requested: '" ++ context_name ++ "'"), 404)
  | some context =>
    if context.tables.length < 1 then
      (.err ("Bad model/context processing: '" ++ context_name ++ "'"), 500)
    else
      match findKeyField context.model with
      | none => (.err ("No primary key field found for '" ++ context_name ++ "'"), 500)
      | some key_field => querySingleResult ctl context key_field id

/-! ## Packed payloads (`pack_single` / `post_sql_parts`)

`pack_single` deep-copies the model dict and replaces non-branch values by
scalars (from the input or freshly generated ids).  A packed value is a
scalar, a nested packed dict, or — when a present foreign key leaves its
branch untouched — a deep-copied model field. -/

mutual
inductive PVal : Type where
  | int : Int → PVal
  | str : String → PVal
  | fldv : CField → PVal
  | pobj : Packed → PVal
inductive Packed : Type where
  | pnil : Packed
  | pcons : String → PVal → Packed → Packed
end

def Packed.hasKey : Packed → String → Bool
  | .pnil, _ => false
  | .pcons k _ rest, key => k == key || rest.hasKey key

def Packed.find? : Packed → String → Option PVal
  | .pnil, _ => none
  | .pcons k v rest, key => if k == key then some v else rest.find? key

def Packed.keys : Packed → List String
  | .pnil => []
  | .pcons k _ rest => k :: rest.keys

/-- Python `str(value)` on a packed value.  `str` of a `DatabaseField` or of
a dict includes the object address; the stand-ins below are never reached by
a theorem. -/
def pyStr : PVal → String
  | .int n => toString n
  | .str s => s
  | .fldv _ => "<db.DatabaseField.DatabaseField object>"
  | .pobj _ => "<dict object>"

/-! Deep copy of an untouched model value into a packed slot (a present
foreign key leaves its `_branch` sub-dict as deep-copied model fields). -/

mutual
def MVal.toPVal : MVal → PVal
  | .fld f => .fldv f
  | .br b => .pobj b.toPacked
def Model.toPacked : Model → Packed
  | .mnil => .pnil
  | .mcons k v rest => .pcons k v.toPVal rest.toPacked
end

/-- Python `args[api_name]` lookup into the input dict of `pack_single`. -/
def dGet (d : List (String × PVal)) (k : String) : Option PVal :=
  ((d.find? (fun p => p.1 == k)).map (fun p => p.2))

/-- Finds the foreign-key trigger entry for a `_branch` key: the first plain
field entry `k0` of the level with `k0 ++ "_branch"` equal to the branch
key.  (In a compiled model the trigger is unique and immediately precedes
its branch.) -/
def triggerFor : Model → String → Option CField
  | .mnil, _ => none
  | .mcons k v rest, kbr =>
    match v with
    | .fld f => if k ++ "_branch" == kbr then some f else triggerFor rest kbr
    | .br _ => triggerFor rest kbr

/-- The post-loop injection of `__pack_single_rec` (lines 415–417): every
entry of the packed branch whose key equals `rel_field.relation.fq_name`
is overwritten with the freshly generated id. -/
def injectId : Packed → String → String → Packed
  | .pnil, _, _ => .pnil
  | .pcons k v rest, key, nid =>
    .pcons k (if k == key then .str nid else v) (injectId rest key nid)

mutual
/-- Top-level loop of `APIContext.pack_single` (lines 374–394) over the
deep-copied model.  Non-branch entries: a present display name is copied
from the input; an absent foreign-key trigger receives a fresh id from the
*related* table's generator; an absent primary key receives a fresh id from
the root table's generator; any other absent field raises `AttributeError`.
`_branch` entries reproduce the source's in-place mutation: a branch whose
trigger's display name is absent is packed recursively (and `injectId`
plants the trigger's generated id at the referenced column), otherwise the
branch keeps its deep-copied model fields.  In the source the branch is
mutated while its *trigger* is processed; rebuilding it at the branch key
itself is equivalent for dicts with unique keys (every Python dict). -/
def packTop (c : APIContext) (whole : Model) (d : List (String × PVal)) :
    Model → Except PyError Packed
  | .mnil => .ok .pnil
  | .mcons k v rest =>
    if !strContains k "_branch" then
      match v with
      | .fld this_field =>
        match dGet d this_field.apiName with
        | some val => do
          let r ← packTop c whole d rest
          .ok (.pcons k val r)
        | none =>
          if whole.hasKey (k ++ "_branch") then
            match this_field.relation with
            | .rel _ rt => do
              let r ← packTop c whole d rest
              .ok (.pcons k (.str rt.genId) r)
            | .norel => .error (.attributeError "'NoneType' object has no attribute 'parent'")
          else if strContains this_field.key "PRI" then
            match c.tables with
            | t0 :: _ => do
              let r ← packTop c whole d rest
              .ok (.pcons k (.str t0.genId) r)
            | [] => .error (.keyError "tables[0]")
          else .error (.attributeError ("Missing key '" ++ k ++ "'"))
      | .br _ => .error (.attributeError "'dict' object has no attribute 'api_name'")
    else
      match v with
      | .br b =>
        match triggerFor whole k with
        | some f0 =>
          if (dGet d f0.apiName).isNone then
            match f0.relation with
            | .rel rn rt => do
              let bp ← packRecLoop b d b
              let r ← packTop c whole d rest
              .ok (.pcons k (.pobj (injectId bp
                (rt.dbName ++ "." ++ rt.tbName ++ "." ++ rn) rt.genId)) r)
            | .norel => .error (.attributeError "'NoneType' object has no attribute 'parent'")
          else do
            let r ← packTop c whole d rest
            .ok (.pcons k (.pobj b.toPacked) r)
        | none => do
          let r ← packTop c whole d rest
          .ok (.pcons k (.pobj b.toPacked) r)
      | .fld f => do
        let r ← packTop c whole d rest
        .ok (.pcons k (.fldv f) r)

/-- `APIContext.__pack_single_rec` (lines 396–413), same shape as `packTop`
except that an absent primary key draws from the field's own parent table's
generator (`this_field.parent.gen_id()`). -/
def packRecLoop (whole : Model) (d : List (String × PVal)) :
    Model → Except PyError Packed
  | .mnil => .ok .pnil
  | .mcons k v rest =>
    if !strContains k "_branch" then
      match v with
      | .fld this_field =>
        match dGet d this_field.apiName with
        | some val => do
          let r ← packRecLoop whole d rest
          .ok (.pcons k val r)
        | none =>
          if whole.hasKey (k ++ "_branch") then
            match this_field.relation with
            | .rel _ rt => do
              let r ← packRecLoop whole d rest
              .ok (.pcons k (.str rt.genId) r)
            | .norel => .error (.attributeError "'NoneType' object has no attribute 'parent'")
          else if strContains this_field.key "PRI" then do
            let r ← packRecLoop whole d rest
            .ok (.pcons k (.str this_field.parentGenId) r)
          else .error (.attributeError ("Missing key '" ++ k ++ "'"))
      | .br _ => .error (.attributeError "'dict' object has no attribute 'api_name'")
    else
      match v with
      | .br b =>
        match triggerFor whole k with
        | some f0 =>
          if (dGet d f0.apiName).isNone then
            match f0.relation with
            | .rel rn rt => do
              let bp ← packRecLoop b d b
              let r ← packRecLoop whole d rest
              .ok (.pcons k (.pobj (injectId bp
                (rt.dbName ++ "." ++ rt.tbName ++ "." ++ rn) rt.genId)) r)
            | .norel => .error (.attributeError "'NoneType' object has no attribute 'parent'")
          else do
            let r ← packRecLoop whole d rest
            .ok (.pcons k (.pobj b.toPacked) r)
        | none => do
          let r ← packRecLoop whole d rest
          .ok (.pcons k (.pobj b.toPacked) r)
      | .fld f => do
        let r ← packRecLoop whole d rest
        .ok (.pcons k (.fldv f) r)
end

/-- `APIContext.pack_single`: pack the deep-copied model against the flat
input dict `d`. -/
def pack_single (c : APIContext) (d : List (String × PVal)) : Except PyError Packed :=
  packTop c c.model d c.model

/-! ## Insert statements (`APIContext.post_sql_parts`, lines 189–238) -/

/-- Value serialisation of the root insert loop: single quotes iff the
column's type tag contains `varchar`, always through `str(...)`. -/
def postQuote (typ : String) (v : PVal) : String :=
  if strContains typ "varchar" then "'" ++ pyStr v ++ "'," else pyStr v ++ ","

/-- Value serialisation of `__post_sql_parts_rec`: the `varchar` case
concatenates the raw value (`"'" + pack_node[key] + "',"` — no `str(...)`),
a `TypeError` unless the value is a string. -/
def postQuoteRec (typ : String) (v : PVal) : Except PyError String :=
  if strContains typ "varchar" then
    match v with
    | .str s => .ok ("'" ++ s ++ "',")
    | _ => .error (.typeError "can only concatenate str (not \"int\") to str")
  else .ok (pyStr v ++ ",")

/-- The value loop of `__post_sql_parts_rec` (lines 223–235).  On a *nested*
branch the source calls `__post_sql_parts_rec` with three arguments where
four are required, an unconditional `TypeError` — so this loop never
actually recurses into a deeper level. -/
def postRecLoop (whole : Packed) (mnode : Model) : Packed → Except PyError String
  | .pnil => .ok ""
  | .pcons k v rest =>
    if !strContains k "_branch" then
      match mnode.find? k with
      | none => .error (.keyError k)
      | some (MVal.br _) => .error (.attributeError "'dict' object has no attribute 'typ'")
      | some (MVal.fld mf) =>
        if whole.hasKey (k ++ "_branch") then
          .error (.typeError
            "__post_sql_parts_rec() missing 1 required positional argument: 'sql'")
        else do
          let piece ← postQuoteRec mf.typ v
          let r ← postRecLoop whole mnode rest
          .ok (piece ++ r)
    else postRecLoop whole mnode rest

/-- `APIContext.__post_sql_parts_rec` (lines 220–238): one insert statement
for the related table `reld.parent`, appended to the shared statement list
after any (always failing) deeper recursion. -/
def postRec (pnode : Packed) (mnode : Model) (reld : RelOpt) :
    Except PyError (List String) :=
  match reld with
  | .norel => .error (.attributeError "'NoneType' object has no attribute 'parent'")
  | .rel _ pt => do
    let vals ← postRecLoop pnode mnode pnode
    .ok [strDropRight ("INSERT INTO " ++ pt.fq ++ "\nVALUES\n(" ++ vals) 1 ++ ");"]

/-- The root loop of `post_sql_parts` (lines 201–213): build the root `VALUES`
string left to right; each foreign-key trigger key additionally appends its
branch's insert statement (via `__post_sql_parts_rec`) to the statement list
before the root statement is appended. -/
def postRootLoop (c : APIContext) (whole : Packed) :
    Packed → Except PyError (String × List String)
  | .pnil => .ok ("", [])
  | .pcons k v rest =>
    if !strContains k "_branch" then
      match c.model.find? k with
      | none => .error (.keyError k)
      | some (MVal.br _) => .error (.attributeError "'dict' object has no attribute 'typ'")
      | some (MVal.fld mf) =>
        if whole.hasKey (k ++ "_branch") then
          match whole.find? (k ++ "_branch"), c.model.find? (k ++ "_branch") with
          | some (PVal.pobj pb), some (MVal.br mb) => do
            let bs ← postRec pb mb mf.relation
            let r ← postRootLoop c whole rest
            .ok (postQuote mf.typ v ++ r.1, bs ++ r.2)
          | _, _ => .error (.typeError "branch entry is not a dict")
        else do
          let r ← postRootLoop c whole rest
          .ok (postQuote mf.typ v ++ r.1, r.2)
    else postRootLoop c whole rest

/-- Root-table name access `self.tables[0].fq_name` (`IndexError` when the
context has no tables, modelled as the error case). -/
def post_root_table_fq (c : APIContext) : Option String :=
  match c.tables with
  | t0 :: _ => some t0.fqName
  | [] => none

/-- `APIContext.post_sql_parts`: the branch statements accumulated by the
loop, then the root table's insert statement appended *last* (line 216). -/
def post_sql_parts (c : APIContext) (packed : Packed) : Except PyError (List String) :=
  match post_root_table_fq c with
  | none => .error (.keyError "tables[0]")
  | some rootFq => do
    let r ← postRootLoop c packed packed
    .ok (r.2 ++ [strDropRight ("INSERT INTO " ++ rootFq ++ "\nVALUES\n(" ++ r.1) 1 ++ ");"])

/-! ## AliasName (`db/AliasName.py`) -/

/-- A name with aliases. -/
structure AliasName : Type where
  name : String
  aliases : List String
deriving DecidableEq

/-- `AliasName.is_this`: the given name matches the primary name or any
alias. -/
def AliasName.is_this (a : AliasName) (nm : String) : Bool :=
  nm == a.name || a.aliases.contains nm

/-- `AliasName.remove_alias` (lines 157–183).  Its first statement is
`force_type(name, 'str', caller=caller)` — but `name` is not defined in the
function's scope (the parameter is `alias`), so *every* call raises
`NameError` before the presence check is reached. -/
def AliasName.remove_alias (_a : AliasName) (_al : String) : Except PyError AliasName :=
  .error (.nameError "name 'name' is not defined")

/-- The remainder of `remove_alias` past the broken type check, modelled
separately: the presence check raises `ValueError` for an absent alias
(line 181), and the final `self.aliases.pop(alias)` (line 183) passes a
`str` where `list.pop` requires an integer index — a `TypeError` even for a
present alias.  No execution of the method returns normally. -/
def AliasName.remove_alias_past_check (a : AliasName) (al : String) :
    Except PyError AliasName :=
  if !a.aliases.contains al then
    .error (.valueError ("[AliasName.remove_alias] The supplied alias '" ++ al ++
      "' is not a valid member"))
  else
    .error (.typeError "'str' object cannot be interpreted as an integer")

/-! ## Heap view of `gen_model` (frame analysis for the schema fields)

`DatabaseTable.clone` (lines 57–64) copies the table object but passes
`self.children` — the *same* list object — to the new table; the loop
`for c in d.children: c = c.clone()` rebinds the loop variable and replaces
nothing, so a table clone shares its field objects with the schema-global
table.  Consequently line 61 of `gen_model` (`f.sql_name = tid + '.' + ...`)
writes through to the schema-global `DatabaseField` objects of the root
table.  The store below holds one cell per schema field (indexed by `fid`),
tracking the one attribute `gen_model` ever assigns on a pre-existing
object: `sql_name`.  Model clones allocate fresh cells at the end of the
store. -/

structure Cell : Type where
  sqlName : Option String
deriving DecidableEq

mutual
/-- Heap effects of the `gen_model` root loop (lines 58–67): per field,
allocate the clone's cell (with `sql_name` assigned, lines 59–60), then
write `sql_name` onto the *original* field's cell (line 61), then expand
any branch. -/
def heapRootFields (tid : String) (cnt : Nat) (fs : FldList) (store : List Cell) :
    List Cell × Nat :=
  match fs with
  | .fnil => (store, cnt)
  | .fcons f rest =>
    match f with
    | .mk _ _ _ _ _ _ frel =>
      let store1 := store ++ [⟨some (tid ++ "." ++ f.name)⟩]
      let store2 := store1.set f.fid ⟨some (tid ++ "." ++ f.name)⟩
      match frel with
      | .norel => heapRootFields tid cnt rest store2
      | .rel _ rt =>
        let b := heapBranchRel rt cnt store2
        heapRootFields tid b.2 rest b.1

/-- Heap effects of `branch_rel`: assign the next alias and expand the
referenced table's fields. -/
def heapBranchRel (rt : Tbl) (cnt : Nat) (store : List Cell) : List Cell × Nat :=
  match rt with
  | .mk _ _ _ fs => heapBranchFields ("t" ++ toString (cnt + 1)) (cnt + 1) fs store

/-- Heap effects of the `branch_rel` field loop (lines 84–98): per field,
allocate the clone's cell only — the original schema field is *not* written
(there is no analogue of line 61 in `branch_rel`). -/
def heapBranchFields (tid : String) (cnt : Nat) (fs : FldList) (store : List Cell) :
    List Cell × Nat :=
  match fs with
  | .fnil => (store, cnt)
  | .fcons f rest =>
    match f with
    | .mk _ _ _ _ _ _ frel =>
      let store1 := store ++ [⟨some (tid ++ "." ++ f.name)⟩]
      match frel with
      | .norel => heapBranchFields tid cnt rest store1
      | .rel _ rt =>
        let b := heapBranchRel rt cnt store1
        heapBranchFields tid b.2 rest b.1
end

/-- The heap effect of compiling a context for root table `t` on a store of
schema-field cells. -/
def heapGenModel (t : Tbl) (store : List Cell) : List Cell :=
  match t with
  | .mk _ _ _ fs => (heapRootFields "t1" 1 fs store).1

/-! ## Auxiliary observation functions used by the theorems -/

/-- Python `s.startswith(pat)`. -/
def strStartsWith (s pat : String) : Bool :=
  listStartsWith pat.data s.data

/-- The non-dict entries of the top level of a model, in insertion order
(the entries `context_query_single`'s primary-key scan inspects). -/
def topFields : Model → List CField
  | .mnil => []
  | .mcons _ (.fld f) rest => f :: topFields rest
  | .mcons _ (.br _) rest => topFields rest

/-- The top-level primary-key fields, in insertion order. -/
def topPriFields (m : Model) : List CField :=
  (topFields m).filter (fun f => f.key == "PRI")

/-- Number of top-level foreign-key trigger keys of a packed payload: plain
keys with a `_branch` sibling (the keys whose processing appends a branch
insert statement). -/
def topBranchCount (whole : Packed) : Packed → Nat
  | .pnil => 0
  | .pcons k _ rest =>
    (if !strContains k "_branch" && whole.hasKey (k ++ "_branch") then 1 else 0) +
      topBranchCount whole rest

/-- The `SELECT ... FROM ...` portion of `get_sql_parts` (everything before
the `WHERE` header). -/
def selectFromPart (c : APIContext) : String :=
  strDropRight
    (strDropRight
      ("SELECT 
	" ++ strConcat ((flat_fields c).map (fun f => f.sqlName ++ ", "))) 2 ++
      " 
FROM
	" ++
      strConcat (c.tables.map (fun t => t.fqName ++ " AS " ++ t.dbName ++ ", "))) 2

/-- The SQL string `context_query_multiple` sends to the backend for a
filter-free paged request: the context skeleton, the connective residue
` \n` left by the `AND `-trim when the context has joins, and the `LIMIT`
clause. -/
def pagedSql (c : APIContext) (m : Int) : String :=
  get_sql_parts c ++ (if c.joins.length != 0 then " \n" else "") ++
    "\nLIMIT " ++ toString m ++ ";"

/-! ## Specification-side flattening order (for claim C2)

`specFlatFields` / `specFlatTbl` state, directly by recursion over the
schema, the order the spec describes for `flat_fields`: the root table's
fields in declared order, with each branch's fields (recursively) placed
immediately at the position of their triggering foreign-key field — the
trigger itself omitted.  Aliases are numbered by the running table count,
exactly as during compilation. -/

mutual
def specFlatFields (dbN tbN gid tid pref : String) (cnt : Nat) (fs : FldList) :
    List CField × Nat :=
  match fs with
  | .fnil => ([], cnt)
  | .fcons f rest =>
    match f with
    | .mk _ _ _ _ _ _ frel =>
      let cf := mkCField dbN tbN gid tid pref f
      match frel with
      | .norel =>
        let r := specFlatFields dbN tbN gid tid pref cnt rest
        (cf :: r.1, r.2)
      | .rel _ rt =>
        let b := specFlatTbl (cf.apiName ++ "_") rt cnt
        let r := specFlatFields dbN tbN gid tid pref b.2 rest
        (b.1 ++ r.1, r.2)
def specFlatTbl (pref : String) (rt : Tbl) (cnt : Nat) : List CField × Nat :=
  match rt with
  | .mk dbN tbN gid fs =>
    specFlatFields dbN tbN gid ("t" ++ toString (cnt + 1)) pref (cnt + 1) fs
end

/-- The spec-side flat field list for a compiled root table. -/
def specFlatRoot (t : Tbl) : List CField :=
  match t with
  | .mk dbN tbN gid fs => (specFlatFields dbN tbN gid "t1" "" 1 fs).1

/-- Whether a relation is present (`f.relation != None`). -/
def RelOpt.isRel : RelOpt → Bool
  | .norel => false
  | .rel _ _ => true

/-- Duplicate-freedom of a string list, decidably. -/
def nodupStr : List String → Bool
  | [] => true
  | x :: rest => !rest.contains x && nodupStr rest

/-- The names of the fields of a table, in declared order. -/
def fieldNames : FldList → List String
  | .fnil => []
  | .fcons f rest => f.name :: fieldNames rest

/-! Well-formedness of a schema tree: no database, table or field name
contains the reserved substring `_branch` (which would confuse the
`'_branch' in key` tests of the model walks), and field names are
duplicate-free within each table (so the model dict has distinct keys, as a
real Python dict always has). -/

mutual
def tblWF : Tbl → Bool
  | .mk dbN tbN _ fs =>
    !strContains dbN "_branch" && !strContains tbN "_branch" &&
      nodupStr (fieldNames fs) && fldsWF fs
def fldsWF : FldList → Bool
  | .fnil => true
  | .fcons (.mk _ nm _ _ _ _ r) rest => !strContains nm "_branch" && relWF r && fldsWF rest
def relWF : RelOpt → Bool
  | .norel => true
  | .rel _ rt => tblWF rt
end

/-- The keys one table contributes to its model level, in insertion order:
`fq_name` for each field and additionally `fq_name ++ "_branch"` for a
foreign-key field. -/
def levelKeys (dbN tbN : String) : FldList → List String
  | .fnil => []
  | .fcons f rest =>
    (match f.relation with
      | .norel => [fldFq dbN tbN f]
      | .rel _ _ => [fldFq dbN tbN f, fldFq dbN tbN f ++ "_branch"]) ++
      levelKeys dbN tbN rest


/-- Sequential alias numbering: entry `i` (0-based) carries `db_name`
`"t" ++ toString (i+1)`. -/
def aliasSeq (ts : List TblInst) : Prop :=
  ∀ i, i < ts.length → ts[i]?.map TblInst.dbName = some ("t" ++ toString (i + 1))

/-- A concrete packed payload: `pack_single` on the orders context with the
foreign key `customer_id` absent from the input. -/
def packedEx : Packed :=
  match pack_single ordersCtx [("id", .int 7), ("customer_id_name", .str "Ada")] with
  | .ok p => p
  | .error _ => .pnil

/-- The initial schema store for the example tables: one unassigned
`sql_name` cell per schema field (`fid`s 0–3). -/
def schemaStore0 : List Cell := [⟨none⟩, ⟨none⟩, ⟨none⟩, ⟨none⟩]

/-- The backend call and paging dispatch of `context_query_multiple`
(lines 171–187) for a filter-free paged request with parsed page number
`p`: query with `LIMIT p * page_lim`, 404 on an empty result, the
out-of-range check `page_lim*(p-1) ≥ len ∨ p*page_lim-1 ≥ len` → `([], 404)`,
otherwise the trailing `page_lim`-slice with 200. -/
def pagedDispatch (ctl : APIController) (ctx : APIContext) (p : Int) : ApiResp × Int :=
  let result := ctl.dbQuery (pagedSql ctx (p * ctl.page_lim))
  if result.length == 0 then (.err "", 404)
  else
    let results := result.map (fun row => unpack_single ctx row)
    let mn : Int := ctl.page_lim * (p - 1)
    let mx : Int := p * ctl.page_lim - 1
    if mn ≥ (results.length : Int) || mx ≥ (results.length : Int) then
      (.items [], 404)
    else
      (.items (pySliceFrom results (-1 * ctl.page_lim)), 200)

/-- A 25-row backend table (used by the paging witnesses). -/
def rows25 : List (List Int) := (List.range 25).map (fun i => [(i : Int), 100 + i])

/-- A backend serving `rows25` under the three `LIMIT`s the paging claims
exercise against the customers context. -/
def dbQueryPaged : String → List (List Int) := fun s =>
  if s == pagedSql customersCtx 10 then rows25.take 10
  else if s == pagedSql customersCtx 30 then rows25.take 30
  else if s == pagedSql customersCtx 40 then rows25.take 40
  else []

/-- A paging controller (`page_lim = 10`) over the customers context. -/
def ctlPaged : APIController := ⟨dbQueryPaged, [customersCtx], 10⟩

/-- A controller over the example contexts whose backend returns no rows
(used by witnesses). -/
def ctlSingle : APIController :=
  ⟨fun _ => [], [ordersCtx, customersCtx], 0⟩

/-! # Theorems -/

/-! ## String lemmas -/

theorem str_ext {a b : String} (h : a.data = b.data) : a = b := by
  cases a
  cases b
  simp_all

theorem strDropRight_append (a b : String) (n : Nat) (h : n ≤ b.data.length) :
    strDropRight (a ++ b) n = a ++ strDropRight b n := by
  refine str_ext ?_
  simp only [strDropRight, String.data_append, List.length_append]
  rw [List.take_append_eq_append_take]
  congr 1
  · exact List.take_of_length_le (by omega)
  · congr 1
    omega

theorem strTakeRight_append (a b : String) (n : Nat) (h : n ≤ b.data.length) :
    strTakeRight (a ++ b) n = strTakeRight b n := by
  refine str_ext ?_
  simp only [strTakeRight, String.data_append, List.length_append]
  rw [List.drop_append_eq_append_drop]
  rw [List.drop_eq_nil_of_le (by omega)]
  simp only [List.nil_append]
  congr 1
  omega

theorem listStartsWith_self (l : List Char) : listStartsWith l l = true := by
  induction l with
  | nil => rfl
  | cons c rest ih => simp [listStartsWith, ih]

theorem listHasSub_append_self (p xs : List Char) : listHasSub p (xs ++ p) = true := by
  induction xs with
  | nil =>
    cases p with
    | nil => rfl
    | cons c rest => simp [listHasSub, listStartsWith_self]
  | cons c rest ih => simp [listHasSub, ih]

theorem strContains_append_suffix (x p : String) : strContains (x ++ p) p = true := by
  simp only [strContains, String.data_append]
  exact listHasSub_append_self p.data x.data

theorem strAppend_cancel_right {a b s : String} (h : a ++ s = b ++ s) : a = b := by
  have hd : a.data ++ s.data = b.data ++ s.data := by
    rw [← String.data_append, ← String.data_append, h]
  exact str_ext (List.append_cancel_right hd)

theorem strAppend_cancel_left {s a b : String} (h : s ++ a = s ++ b) : a = b := by
  have hd : s.data ++ a.data = s.data ++ b.data := by
    rw [← String.data_append, ← String.data_append, h]
  exact str_ext (List.append_cancel_left hd)

theorem strConcat_foldl (l : List String) (s : String) :
    l.foldl (fun a b => a ++ b) s = s ++ strConcat l := by
  induction l generalizing s with
  | nil => simp [strConcat]
  | cons x rest ih =>
    show (rest.foldl (fun a b => a ++ b) (s ++ x)) = _
    rw [ih]
    have : strConcat (x :: rest) = x ++ strConcat rest := by
      show (rest.foldl (fun a b => a ++ b) ("" ++ x)) = _
      rw [ih]
      simp [String.append_assoc]
    rw [this, String.append_assoc]

theorem strConcat_cons (x : String) (l : List String) :
    strConcat (x :: l) = x ++ strConcat l := by
  show (l.foldl (fun a b => a ++ b) ("" ++ x)) = _
  rw [strConcat_foldl]
  simp

theorem strConcat_append (l₁ l₂ : List String) :
    strConcat (l₁ ++ l₂) = strConcat l₁ ++ strConcat l₂ := by
  induction l₁ with
  | nil => simp [strConcat]
  | cons x rest ih => simp [strConcat_cons, ih, String.append_assoc]

/-! ## Claim C9 — `remove_alias` -/

/-- C9: the claim states that `remove_alias(a)` fails exactly when `a` is not
among the aliases and succeeds otherwise.  In the code every call raises
`NameError` first (`force_type(name, 'str', ...)` reads the undefined
identifier `name`), and even past that check `self.aliases.pop(alias)`
passes a string where `list.pop` requires an integer index (`TypeError`) —
so removal of a *present* alias never succeeds, contradicting the method's
own docstring example (`remove_alias('Johnny')` then `is_this('Johnny') ==
False`).  Evaluated at the docstring's own input: -/
theorem c9_remove_alias_code_bug :
    (AliasName.mk "Johnathan" ["John", "Johnny"]).is_this "Johnny" = true ∧
    "Johnny" ∈ (AliasName.mk "Johnathan" ["John", "Johnny"]).aliases ∧
    (AliasName.mk "Johnathan" ["John", "Johnny"]).remove_alias "Johnny" =
      .error (.nameError "name 'name' is not defined") ∧
    (AliasName.mk "Johnathan" ["John", "Johnny"]).remove_alias_past_check "Johnny" =
      .error (.typeError "'str' object cannot be interpreted as an integer") :=
  ⟨by decide, by decide, rfl, rfl⟩

/-! ## Claim C4 — the `WHERE` header -/

/-- C4 counterexample: the compiled `shop.customers` context has zero join
clauses, yet the string returned by `get_sql_parts` still ends with the
`WHERE` header — the claim that the `WHERE` clause is omitted entirely is
false on this context. -/
theorem c4_where_counterexample :
    customersCtx.joins = [] ∧
    strContains (get_sql_parts customersCtx) "WHERE" = true ∧
    get_sql_parts customersCtx =
      "SELECT \n\tt1.id, t1.name \nFROM\n\tshop.customers AS t1 \nWHERE\n\t" :=
  ⟨rfl, rfl, rfl⟩

/-- C4 (amended): `get_sql_parts` always emits the ` \nWHERE\n\t` header.
With zero joins the returned string ends with that dangling header and no
conjuncts; with at least one join it ends with the join conjuncts
`AND`-joined, the final separator trimmed to a single trailing space. -/
theorem get_sql_parts_unfold (c : APIContext) :
    get_sql_parts c =
      if c.joins.length > 0 then
        strDropRight (selectFromPart c ++ " \nWHERE\n\t" ++
          strConcat (c.joins.map (fun j => j ++ " AND "))) 4
      else
        selectFromPart c ++ " \nWHERE\n\t" ++
          strConcat (c.joins.map (fun j => j ++ " AND ")) := rfl

theorem get_sql_parts_nojoins (c : APIContext) (hj : c.joins = []) :
    get_sql_parts c = selectFromPart c ++ " \nWHERE\n\t" := by
  rw [get_sql_parts_unfold, hj]
  simp only [List.length_nil, gt_iff_lt, Nat.lt_irrefl, if_false, List.map_nil]
  rw [show strConcat ([] : List String) = "" from rfl, String.append_empty]

theorem get_sql_parts_joins (c : APIContext) (js : List String) (j0 : String)
    (hj : c.joins = js ++ [j0]) :
    get_sql_parts c =
      selectFromPart c ++ " \nWHERE\n\t" ++
        strConcat (js.map (fun j => j ++ " AND ")) ++ (j0 ++ " ") := by
  rw [get_sql_parts_unfold, hj]
  have hlen : (js ++ [j0]).length > 0 := by simp
  simp only [hlen, if_pos, List.map_append, strConcat_append, List.map_cons,
    List.map_nil]
  rw [show strConcat [j0 ++ " AND "] = j0 ++ " AND " from by
    rw [strConcat_cons, show strConcat ([] : List String) = "" from rfl,
      String.append_empty]]
  rw [← String.append_assoc]
  rw [strDropRight_append _ (j0 ++ " AND ") 4
    (by simp [String.data_append])]
  rw [strDropRight_append j0 " AND " 4 (by decide)]
  rw [show strDropRight " AND " 4 = " " from rfl]

theorem c4_where_amended (c : APIContext) :
    (c.joins = [] → get_sql_parts c = selectFromPart c ++ " \nWHERE\n\t") ∧
    (∀ js j0, c.joins = js ++ [j0] →
      get_sql_parts c =
        selectFromPart c ++ " \nWHERE\n\t" ++
          strConcat (js.map (fun j => j ++ " AND ")) ++ (j0 ++ " ")) :=
  ⟨get_sql_parts_nojoins c, fun js j0 => get_sql_parts_joins c js j0⟩

/-- C4 witness: the amended theorem applied to the two compiled example
contexts (zero joins and one join). -/
theorem c4_where_amended_witness :
    (get_sql_parts customersCtx = selectFromPart customersCtx ++ " \nWHERE\n\t") ∧
    (get_sql_parts ordersCtx =
      selectFromPart ordersCtx ++ " \nWHERE\n\t" ++
        strConcat ([].map (fun j => j ++ " AND ")) ++ ("t1.customer_id = t2.id" ++ " ")) :=
  ⟨(c4_where_amended customersCtx).1 rfl,
   (c4_where_amended ordersCtx).2 [] "t1.customer_id = t2.id" rfl⟩

/-! ## Claim C3 — alias assignment -/

theorem aliasSeq_append (ts : List TblInst) (fq g : String) (h : aliasSeq ts) :
    aliasSeq (ts ++ [⟨fq, "t" ++ toString (ts.length + 1), g⟩]) := by
  intro i hi
  rcases Nat.lt_or_ge i ts.length with hlt | hge
  · rw [List.getElem?_append_left hlt]
    exact h i hlt
  · have hieq : i = ts.length := by
      simp only [List.length_append, List.length_cons, List.length_nil] at hi
      omega
    subst hieq
    rw [List.getElem?_append_right (by omega)]
    simp

mutual
theorem genFields_aliasSeq : ∀ (dbN tbN gid tid pref : String) (fs : FldList)
    (st : GenState), aliasSeq st.tables →
    aliasSeq (genFields dbN tbN gid tid pref fs st).2.tables
  | dbN, tbN, gid, tid, pref, .fnil, st, h => by simpa [genFields] using h
  | dbN, tbN, gid, tid, pref, .fcons (.mk i nm ty nb ky df .norel) rest, st, h => by
    simpa [genFields] using genFields_aliasSeq dbN tbN gid tid pref rest st h
  | dbN, tbN, gid, tid, pref, .fcons (.mk i nm ty nb ky df (.rel rn rt)) rest, st, h => by
    simp only [genFields]
    exact genFields_aliasSeq dbN tbN gid tid pref rest _
      (branchRel_aliasSeq _ rt _ h)
theorem branchRel_aliasSeq : ∀ (pref : String) (rt : Tbl) (st : GenState),
    aliasSeq st.tables → aliasSeq (branchRel pref rt st).2.tables
  | pref, .mk dbN tbN gid fs, st, h => by
    simp only [branchRel]
    exact genFields_aliasSeq dbN tbN gid _ pref fs _ (aliasSeq_append st.tables _ gid h)
end

/-- C3: for every compiled context, the `i`-th table clone (0-based) carries
the storage alias `"t" ++ toString (i+1)` — alias assignment is strictly
sequential in table-discovery order — and compilation is deterministic:
compiling the same root table twice yields the same context (alias
assignment and join ordering included), the compiler being a pure function
of the schema tree. -/
theorem c3_alias_numbering (t : Tbl) :
    (∀ i (h : i < (mkContext t).tables.length),
      ((mkContext t).tables.get ⟨i, h⟩).dbName = "t" ++ toString (i + 1)) ∧
    mkContext t = mkContext t := by
  refine ⟨?_, rfl⟩
  intro i h
  have hseq : aliasSeq (mkContext t).tables := by
    cases t with
    | mk dbN tbN gid fs =>
      have h0 : aliasSeq [⟨dbN ++ "." ++ tbN, "t1", gid⟩] := by
        intro i hi
        have : i = 0 := by
          simp only [List.length_cons, List.length_nil] at hi
          omega
        subst this
        rfl
      exact genFields_aliasSeq dbN tbN gid "t1" "" fs _ h0
  have := hseq i h
  rw [List.getElem?_eq_getElem h] at this
  simpa using this

/-- C3 witness: the second table of the compiled orders context is aliased
`t2`. -/
theorem c3_alias_numbering_witness :
    ((mkContext ordersTbl).tables.get ⟨1, by decide⟩).dbName = "t" ++ toString (1 + 1) :=
  (c3_alias_numbering ordersTbl).1 1 (by decide)

/-! ## Claim C6 — frame effect of compilation on the schema fields -/

mutual
theorem heapBranchFields_isAppend : ∀ (tid : String) (cnt : Nat) (fs : FldList)
    (store : List Cell), ∃ d, (heapBranchFields tid cnt fs store).1 = store ++ d
  | tid, cnt, .fnil, store => ⟨[], by simp [heapBranchFields]⟩
  | tid, cnt, .fcons (.mk i nm ty nb ky df .norel) rest, store => by
    obtain ⟨d, hd⟩ := heapBranchFields_isAppend tid cnt rest
      (store ++ [⟨some (tid ++ "." ++ nm)⟩])
    exact ⟨⟨some (tid ++ "." ++ nm)⟩ :: d, by
      simp only [heapBranchFields, Fld.name] at hd ⊢
      rw [hd, List.append_assoc]
      rfl⟩
  | tid, cnt, .fcons (.mk i nm ty nb ky df (.rel rn rt)) rest, store => by
    obtain ⟨d1, hd1⟩ := heapBranchRel_isAppend rt cnt
      (store ++ [⟨some (tid ++ "." ++ nm)⟩])
    obtain ⟨d2, hd2⟩ := heapBranchFields_isAppend tid
      (heapBranchRel rt cnt (store ++ [⟨some (tid ++ "." ++ nm)⟩])).2 rest
      (heapBranchRel rt cnt (store ++ [⟨some (tid ++ "." ++ nm)⟩])).1
    refine ⟨⟨some (tid ++ "." ++ nm)⟩ :: (d1 ++ d2), ?_⟩
    simp only [heapBranchFields, Fld.name] at hd1 hd2 ⊢
    rw [hd2, hd1]
    simp [List.append_assoc]
theorem heapBranchRel_isAppend : ∀ (rt : Tbl) (cnt : Nat) (store : List Cell),
    ∃ d, (heapBranchRel rt cnt store).1 = store ++ d
  | .mk dbN tbN gid fs, cnt, store => by
    simpa only [heapBranchRel] using
      heapBranchFields_isAppend ("t" ++ toString (cnt + 1)) (cnt + 1) fs store
end


theorem heapRootFields_spec : ∀ (tid : String) (cnt : Nat) (fs : FldList)
    (store : List Cell),
    (∀ f ∈ fs.toList, f.fid < store.length) →
    (fs.toList.map Fld.fid).Nodup →
    (∀ f ∈ fs.toList,
      (heapRootFields tid cnt fs store).1[f.fid]? =
        some ⟨some (tid ++ "." ++ f.name)⟩) ∧
    (∀ j, j < store.length → j ∉ fs.toList.map Fld.fid →
      (heapRootFields tid cnt fs store).1[j]? = store[j]?) ∧
    store.length ≤ (heapRootFields tid cnt fs store).1.length
  | tid, cnt, .fnil, store => fun _ _ =>
    ⟨fun f hf => absurd hf (by simp [FldList.toList]),
     fun j _ _ => by simp [heapRootFields],
     by simp [heapRootFields]⟩
  | tid, cnt, .fcons (.mk i nm ty nb ky df .norel) rest, store => fun hlt hnd => by
    have hi : i < store.length := by
      simpa [Fld.fid, FldList.toList] using hlt _ (List.Mem.head _)
    have hnotin : i ∉ rest.toList.map Fld.fid := by
      simp only [FldList.toList, List.map_cons, List.nodup_cons, Fld.fid] at hnd
      exact hnd.1
    have hlen1 : (store ++ [(⟨some (tid ++ "." ++ nm)⟩ : Cell)]).length = store.length + 1 := by
      simp
    have hlt' : ∀ f ∈ rest.toList,
        f.fid < ((store ++ [(⟨some (tid ++ "." ++ nm)⟩ : Cell)]).set i
          ⟨some (tid ++ "." ++ nm)⟩).length := by
      intro f hf
      have := hlt f (List.Mem.tail _ hf)
      simp only [List.length_set, hlen1]
      omega
    have hnd' : (rest.toList.map Fld.fid).Nodup := by
      simp only [FldList.toList, List.map_cons, List.nodup_cons] at hnd
      exact hnd.2
    obtain ⟨ih1, ih2, ih3⟩ := heapRootFields_spec tid cnt rest
      ((store ++ [(⟨some (tid ++ "." ++ nm)⟩ : Cell)]).set i ⟨some (tid ++ "." ++ nm)⟩)
      hlt' hnd'
    have hunfold : heapRootFields tid cnt (.fcons (.mk i nm ty nb ky df .norel) rest) store =
        heapRootFields tid cnt rest
          ((store ++ [(⟨some (tid ++ "." ++ nm)⟩ : Cell)]).set i
            ⟨some (tid ++ "." ++ nm)⟩) := by
      simp [heapRootFields, Fld.name, Fld.fid]
    rw [hunfold]
    refine ⟨?_, ?_, ?_⟩
    · intro f hf
      rcases hf with _ | ⟨_, hf⟩
      · -- the field processed at this step
        simp only [Fld.fid, Fld.name]
        rw [ih2 i (by simp only [List.length_set, hlen1]; omega) hnotin]
        rw [List.getElem?_set_self (by simp only [hlen1]; omega)]
      · exact ih1 f hf
    · intro j hj hjn
      have hjne : j ≠ i := by
        simp only [FldList.toList, List.map_cons, Fld.fid] at hjn
        intro hje
        exact hjn (by simp [hje])
      have hjn' : j ∉ rest.toList.map Fld.fid := by
        simp only [FldList.toList, List.map_cons] at hjn
        intro hmem
        exact hjn (by simp [hmem])
      rw [ih2 j (by simp only [List.length_set, hlen1]; omega) hjn']
      rw [List.getElem?_set_ne (fun he => hjne he.symm)]
      exact List.getElem?_append_left hj
    · calc store.length ≤ store.length + 1 := by omega
        _ = ((store ++ [(⟨some (tid ++ "." ++ nm)⟩ : Cell)]).set i
            ⟨some (tid ++ "." ++ nm)⟩).length := by simp [hlen1]
        _ ≤ _ := ih3
  | tid, cnt, .fcons (.mk i nm ty nb ky df (.rel rn rt)) rest, store => fun hlt hnd => by
    have hi : i < store.length := by
      simpa [Fld.fid, FldList.toList] using hlt _ (List.Mem.head _)
    have hnotin : i ∉ rest.toList.map Fld.fid := by
      simp only [FldList.toList, List.map_cons, List.nodup_cons, Fld.fid] at hnd
      exact hnd.1
    have hlen1 : (store ++ [(⟨some (tid ++ "." ++ nm)⟩ : Cell)]).length = store.length + 1 := by
      simp
    set store2 := (store ++ [(⟨some (tid ++ "." ++ nm)⟩ : Cell)]).set i
      ⟨some (tid ++ "." ++ nm)⟩ with hstore2
    have hlen2 : store2.length = store.length + 1 := by
      simp [hstore2, hlen1]
    obtain ⟨d1, hd1⟩ := heapBranchRel_isAppend rt cnt store2
    have hblen : store2.length ≤ (heapBranchRel rt cnt store2).1.length := by
      rw [hd1]
      simp
    have hlt' : ∀ f ∈ rest.toList, f.fid < (heapBranchRel rt cnt store2).1.length := by
      intro f hf
      have := hlt f (List.Mem.tail _ hf)
      omega
    have hnd' : (rest.toList.map Fld.fid).Nodup := by
      simp only [FldList.toList, List.map_cons, List.nodup_cons] at hnd
      exact hnd.2
    obtain ⟨ih1, ih2, ih3⟩ := heapRootFields_spec tid (heapBranchRel rt cnt store2).2 rest
      (heapBranchRel rt cnt store2).1 hlt' hnd'
    have hunfold : heapRootFields tid cnt
        (.fcons (.mk i nm ty nb ky df (.rel rn rt)) rest) store =
        heapRootFields tid (heapBranchRel rt cnt store2).2 rest
          (heapBranchRel rt cnt store2).1 := by
      simp [heapRootFields, Fld.name, Fld.fid, hstore2]
    rw [hunfold]
    have hread : ∀ j, j < store2.length →
        (heapBranchRel rt cnt store2).1[j]? = store2[j]? := by
      intro j hj
      rw [hd1]
      exact List.getElem?_append_left hj
    refine ⟨?_, ?_, ?_⟩
    · intro f hf
      rcases hf with _ | ⟨_, hf⟩
      · simp only [Fld.fid, Fld.name]
        rw [ih2 i (by omega) hnotin]
        rw [hread i (by omega)]
        rw [hstore2]
        rw [List.getElem?_set_self (by simp only [hlen1]; omega)]
      · exact ih1 f hf
    · intro j hj hjn
      have hjne : j ≠ i := by
        simp only [FldList.toList, List.map_cons, Fld.fid] at hjn
        intro hje
        exact hjn (by simp [hje])
      have hjn' : j ∉ rest.toList.map Fld.fid := by
        simp only [FldList.toList, List.map_cons] at hjn
        intro hmem
        exact hjn (by simp [hmem])
      rw [ih2 j (by omega) hjn']
      rw [hread j (by omega)]
      rw [hstore2]
      rw [List.getElem?_set_ne (fun he => hjne he.symm)]
      exact List.getElem?_append_left hj
    · omega

/-- C6 (amended): compiling a context does NOT leave the schema-global
field objects unchanged.  What holds instead: model clones are fresh objects
(the store only grows; no pre-existing cell other than the root fields' is
written, so mutating a context's clones is never observable on the schema or
on another context's clones), but `gen_model` line 61 writes each ROOT
field's `sql_name` back onto the original schema field object — the clone
sharing of `DatabaseTable.clone` makes this a real mutation of the schema.
Branch tables' original fields are untouched. -/
theorem c6_frame_amended (t : Tbl) (store : List Cell)
    (hlt : ∀ f ∈ t.children.toList, f.fid < store.length)
    (hnd : (t.children.toList.map Fld.fid).Nodup) :
    (∀ f ∈ t.children.toList,
      (heapGenModel t store)[f.fid]? = some ⟨some ("t1." ++ f.name)⟩) ∧
    (∀ j, j < store.length → j ∉ t.children.toList.map Fld.fid →
      (heapGenModel t store)[j]? = store[j]?) ∧
    store.length ≤ (heapGenModel t store).length := by
  cases t with
  | mk dbN tbN gid fs =>
    exact heapRootFields_spec "t1" 1 fs store hlt hnd

/-- C6 counterexample: compiling the `shop.customers` context writes
`sql_name = "t1.id"` through to the schema-global field object (cell 2 is
the `fid` of `shop.customers.id`, `None` before compilation), so the schema
is observably mutated, against the claim. -/
theorem c6_frame_counterexample :
    (heapGenModel customersTbl schemaStore0)[2]? = some ⟨some "t1.id"⟩ ∧
    schemaStore0[2]? = some ⟨none⟩ ∧
    (heapGenModel customersTbl schemaStore0)[2]? ≠ schemaStore0[2]? :=
  ⟨rfl, rfl, by decide⟩

/-- C6 witness: the amended theorem applied to the customers schema — the
root fields' cells are overwritten, every other pre-existing cell survives,
and the store only grows. -/
theorem c6_frame_amended_witness :
    ((heapGenModel customersTbl schemaStore0)[2]? = some ⟨some "t1.id"⟩) ∧
    ((heapGenModel customersTbl schemaStore0)[0]? = schemaStore0[0]?) ∧
    schemaStore0.length ≤ (heapGenModel customersTbl schemaStore0).length := by
  obtain ⟨h1, h2, h3⟩ := c6_frame_amended customersTbl schemaStore0
    (by
      intro f hf
      simp only [customersTbl, Tbl.children, FldList.toList] at hf
      rcases hf with _ | ⟨_, hf⟩
      · decide
      · rcases hf with _ | ⟨_, hf⟩
        · decide
        · cases hf)
    (by decide)
  refine ⟨?_, ?_, h3⟩
  · have := h1 (.mk 2 "id" "varchar(32)" false "PRI" false .norel)
      (by simp [customersTbl, Tbl.children, FldList.toList])
    simpa [Fld.fid, Fld.name] using this
  · exact h2 0 (by decide) (by decide)

/-! ## Claim C5 — insert statement order -/

theorem listStartsWith_append_self (p q : List Char) :
    listStartsWith p (p ++ q) = true := by
  induction p with
  | nil => rfl
  | cons c rest ih => simp [listStartsWith, ih]

theorem strStartsWith_append (a b : String) : strStartsWith (a ++ b) a = true := by
  simp only [strStartsWith, String.data_append]
  exact listStartsWith_append_self a.data b.data

theorem listStartsWith_of_append (p q l : List Char)
    (h : listStartsWith (p ++ q) l = true) : listStartsWith p l = true := by
  induction p generalizing l with
  | nil => rfl
  | cons c rest ih =>
    cases l with
    | nil => simp [listStartsWith] at h
    | cons x xs =>
      simp only [List.cons_append, listStartsWith, Bool.and_eq_true] at h ⊢
      exact ⟨h.1, ih xs h.2⟩

theorem strStartsWith_of_append (s a b : String)
    (h : strStartsWith s (a ++ b) = true) : strStartsWith s a = true := by
  simp only [strStartsWith, String.data_append] at h ⊢
  exact listStartsWith_of_append a.data b.data s.data h

theorem stmt_startsWith (a b vals : String) :
    strStartsWith
      (strDropRight (a ++ b ++ "\nVALUES\n(" ++ vals) 1 ++ ");") (a ++ b) = true := by
  have hre : a ++ b ++ "\nVALUES\n(" ++ vals = (a ++ b) ++ ("\nVALUES\n(" ++ vals) := by
    rw [String.append_assoc, String.append_assoc]
  rw [hre]
  rw [strDropRight_append (a ++ b) ("\nVALUES\n(" ++ vals) 1 (by
    have h9 : ("\nVALUES\n(" : String).data.length = 9 := rfl
    simp only [String.data_append, List.length_append, h9]
    omega)]
  rw [String.append_assoc]
  exact strStartsWith_append _ _

theorem except_bind_ok {α β : Type} (x : Except PyError α) (f : α → Except PyError β)
    (b : β) (h : (x >>= f) = .ok b) : ∃ a, x = .ok a ∧ f a = .ok b := by
  cases x with
  | error e => simp [Bind.bind, Except.bind] at h
  | ok a => exact ⟨a, rfl, by simpa [Bind.bind, Except.bind] using h⟩

theorem postRec_ok_shape (pnode : Packed) (mnode : Model) (reld : RelOpt)
    (l : List String) (h : postRec pnode mnode reld = .ok l) :
    ∃ stmt, l = [stmt] ∧ strStartsWith stmt "INSERT INTO " = true := by
  cases reld with
  | norel => simp [postRec] at h
  | rel rn pt =>
    simp only [postRec] at h
    obtain ⟨vals, hv, hf⟩ := except_bind_ok _ _ _ h
    refine ⟨strDropRight ("INSERT INTO " ++ pt.fq ++ "\nVALUES\n(" ++ vals) 1 ++ ");",
      ?_, ?_⟩
    · simpa [pure, Except.pure] using hf.symm
    · have := stmt_startsWith "INSERT INTO " pt.fq vals
      exact strStartsWith_of_append _ _ _ this

theorem postRootLoop_spec : ∀ (c : APIContext) (whole p : Packed) (s : String)
    (acc : List String), postRootLoop c whole p = .ok (s, acc) →
    acc.length = topBranchCount whole p ∧
    ∀ x ∈ acc, strStartsWith x "INSERT INTO " = true
  | c, whole, .pnil, s, acc, h => by
    simp only [postRootLoop] at h
    obtain ⟨h1, h2⟩ := Prod.mk.injEq .. ▸ (Except.ok.injEq .. ▸ h)
    constructor
    · rw [← h2]
      rfl
    · intro x hx
      rw [← h2] at hx
      cases hx
  | c, whole, .pcons k v rest, s, acc, h => by
    simp only [postRootLoop] at h
    by_cases hk : strContains k "_branch"
    · simp only [hk, Bool.not_true, Bool.false_eq_true, if_false] at h
      have := postRootLoop_spec c whole rest s acc h
      simpa [topBranchCount, hk] using this
    · simp only [hk, Bool.not_false, if_true] at h
      cases hm : c.model.find? k with
      | none => simp [hm] at h
      | some mv =>
        cases mv with
        | br _ => simp [hm] at h
        | fld mf =>
          simp only [hm] at h
          by_cases hbr : whole.hasKey (k ++ "_branch")
          · simp only [hbr, if_true] at h
            cases hwf : whole.find? (k ++ "_branch") with
            | none => simp [hwf] at h
            | some pv =>
              cases pv with
              | int n => simp [hwf] at h
              | str sv => simp [hwf] at h
              | fldv f => simp [hwf] at h
              | pobj pb =>
                cases hmf : c.model.find? (k ++ "_branch") with
                | none => simp [hwf, hmf] at h
                | some mv2 =>
                  cases mv2 with
                  | fld f2 => simp [hwf, hmf] at h
                  | br mb =>
                    simp only [hwf, hmf] at h
                    obtain ⟨bs, hbs, h2⟩ := except_bind_ok _ _ _ h
                    obtain ⟨r, hr, h3⟩ := except_bind_ok _ _ _ h2
                    obtain ⟨stmt, hstmt, hsw⟩ := postRec_ok_shape _ _ _ _ hbs
                    have hpair : (postQuote mf.typ v ++ r.1, bs ++ r.2) = (s, acc) := by
                      simpa [pure, Except.pure] using h3
                    obtain ⟨ihl, ihm⟩ := postRootLoop_spec c whole rest r.1 r.2 (by
                      rw [← Prod.mk.eta (p := r)] at hr
                      exact hr)
                    have hacc : acc = bs ++ r.2 := by
                      have := congrArg Prod.snd hpair
                      simpa using this.symm
                    subst hacc
                    constructor
                    · simp only [List.length_append, ihl, hstmt, List.length_cons,
                        List.length_nil, topBranchCount, hk, hbr]
                      simp
                    · intro x hx
                      rcases List.mem_append.mp hx with hx1 | hx2
                      · rw [hstmt] at hx1
                        rcases hx1 with _ | ⟨_, hx1⟩
                        · exact hsw
                        · cases hx1
                      · exact ihm x hx2
          · simp only [hbr, if_false] at h
            obtain ⟨r, hr, h2⟩ := except_bind_ok _ _ _ h
            have hpair : (postQuote mf.typ v ++ r.1, r.2) = (s, acc) := by
              simpa [pure, Except.pure] using h2
            obtain ⟨ihl, ihm⟩ := postRootLoop_spec c whole rest r.1 r.2 (by
              rw [← Prod.mk.eta (p := r)] at hr
              exact hr)
            have hacc : acc = r.2 := by
              have := congrArg Prod.snd hpair
              simpa using this.symm
            subst hacc
            refine ⟨?_, ihm⟩
            simp [topBranchCount, hk, hbr, ihl]

/-- C5 (amended): the claim has the order reversed.  For every packed
payload containing at least one branch, `post_sql_parts` returns one INSERT
per table touched with the ROOT table's statement appended LAST; the branch
tables' statements, produced by the recursion while the value loop runs,
come BEFORE it in payload order. -/
theorem c5_insert_order_amended (c : APIContext) (packed : Packed) (l : List String)
    (hok : post_sql_parts c packed = .ok l)
    (hbr : 1 ≤ topBranchCount packed packed) :
    ∃ pre rootFq rootStmt,
      post_root_table_fq c = some rootFq ∧
      l = pre ++ [rootStmt] ∧
      strStartsWith rootStmt ("INSERT INTO " ++ rootFq) = true ∧
      pre.length = topBranchCount packed packed ∧
      1 ≤ pre.length ∧
      (∀ x ∈ pre, strStartsWith x "INSERT INTO " = true) := by
  unfold post_sql_parts at hok
  cases hro : post_root_table_fq c with
  | none => simp [hro] at hok
  | some rootFq =>
    simp only [hro] at hok
    obtain ⟨r, hr, h2⟩ := except_bind_ok _ _ _ hok
    have hl : l = r.2 ++
        [strDropRight ("INSERT INTO " ++ rootFq ++ "\nVALUES\n(" ++ r.1) 1 ++ ");"] := by
      have := h2
      simp only [pure, Except.pure, Except.ok.injEq] at this
      exact this.symm
    obtain ⟨hlen, hmem⟩ := postRootLoop_spec c packed packed r.1 r.2 (by
      rw [← Prod.mk.eta (p := r)] at hr
      exact hr)
    exact ⟨r.2, rootFq, _, rfl, hl,
      stmt_startsWith "INSERT INTO " rootFq r.1, hlen, by omega, hmem⟩

/-- C5 counterexample: on the compiled orders context and a packed payload
with one branch, the list returned by `post_sql_parts` has the BRANCH insert
(`shop.customers`) first and the root insert (`shop.orders`) last — against
the claim that the root statement comes first. -/
theorem c5_insert_order_counterexample :
    post_sql_parts ordersCtx packedEx =
      .ok ["INSERT INTO shop.customers\nVALUES\n('cust-uuid-1','Ada');",
           "INSERT INTO shop.orders\nVALUES\n(7,'cust-uuid-1');"] ∧
    post_root_table_fq ordersCtx = some "shop.orders" ∧
    strStartsWith "INSERT INTO shop.customers\nVALUES\n('cust-uuid-1','Ada');"
      "INSERT INTO shop.orders" = false :=
  ⟨rfl, rfl, rfl⟩

/-- C5 witness: the amended theorem applied to the concrete orders payload. -/
theorem c5_insert_order_amended_witness :
    ∃ pre rootFq rootStmt,
      post_root_table_fq ordersCtx = some rootFq ∧
      (["INSERT INTO shop.customers\nVALUES\n('cust-uuid-1','Ada');",
        "INSERT INTO shop.orders\nVALUES\n(7,'cust-uuid-1');"] : List String) =
        pre ++ [rootStmt] ∧
      strStartsWith rootStmt ("INSERT INTO " ++ rootFq) = true ∧
      pre.length = topBranchCount packedEx packedEx ∧
      1 ≤ pre.length ∧
      (∀ x ∈ pre, strStartsWith x "INSERT INTO " = true) :=
  c5_insert_order_amended ordersCtx packedEx _ rfl (by decide)

/-! ## Claims C8 and C10 — `context_query_single` -/

theorem findKeyFieldAux_eq : ∀ (m : Model) (acc : Option CField),
    findKeyFieldAux acc m =
      (match (topPriFields m).getLast? with
        | some f => some f
        | none => acc)
  | .mnil, acc => by simp [findKeyFieldAux, topPriFields, topFields]
  | .mcons k (.br b) rest, acc => by
    simpa [findKeyFieldAux, topPriFields, topFields] using findKeyFieldAux_eq rest acc
  | .mcons k (.fld f) rest, acc => by
    simp only [findKeyFieldAux, topPriFields, topFields, List.filter_cons]
    by_cases hp : (f.key == "PRI") = true
    · simp only [hp, if_true]
      rw [findKeyFieldAux_eq rest]
      cases htail : (topFields rest).filter (fun f => f.key == "PRI") with
      | nil => simp [topPriFields, htail]
      | cons y ys =>
        simp only [topPriFields, htail, List.getLast?_cons_cons]
        cases hl : (y :: ys).getLast? with
        | none => simp [List.getLast?] at hl
        | some g => simp [hl]
    · simp only [hp, if_false]
      rw [findKeyFieldAux_eq rest]
      simp [topPriFields]

theorem findKeyField_eq_lastPri (m : Model) :
    findKeyField m = (topPriFields m).getLast? := by
  have h := findKeyFieldAux_eq m none
  rw [findKeyField] at *
  cases hL : (topPriFields m).getLast? with
  | none => simpa [hL] using h
  | some g => simpa [hL] using h

/-- C10: when a context's model has several top-level primary-key fields,
`context_query_single` reports no error or ambiguity — the lookup predicate
is silently built from the LAST primary-key field in model iteration order;
only a context with zero top-level primary-key fields yields the
`No primary key field found` 500. -/
theorem c10_last_pri_selected (ctl : APIController) (nm id : String)
    (ctx : APIContext) (hfind : findContext ctl.contexts nm = some ctx)
    (htab : 1 ≤ ctx.tables.length) :
    findKeyField ctx.model = (topPriFields ctx.model).getLast? ∧
    (topPriFields ctx.model = [] →
      context_query_single ctl nm id =
        (.err ("No primary key field found for '" ++ nm ++ "'"), 500)) ∧
    (∀ kf, (topPriFields ctx.model).getLast? = some kf →
      context_query_single ctl nm id = querySingleResult ctl ctx kf id) := by
  refine ⟨findKeyField_eq_lastPri _, ?_, ?_⟩
  · intro h0
    simp only [context_query_single, hfind]
    rw [if_neg (by omega)]
    rw [findKeyField_eq_lastPri, h0]
    rfl
  · intro kf hkf
    simp only [context_query_single, hfind]
    rw [if_neg (by omega)]
    rw [findKeyField_eq_lastPri, hkf]

/-- C10 witness: on the compiled orders context the single top-level primary
key is selected and the query proceeds to the backend dispatch. -/
theorem c10_last_pri_selected_witness :
    context_query_single ctlSingle "shop_orders" "7" =
      querySingleResult ctlSingle ordersCtx
        ⟨"id", "shop.orders.id", "id", "t1.id", "int(11)", false, "PRI", false,
          .norel, "ord-uuid-1"⟩ "7" :=
  (c10_last_pri_selected ctlSingle "shop_orders" "7" ordersCtx rfl
    (by decide)).2.2 _ rfl

/-- C8: for every known context with at least one top-level primary-key
field, `context_query_single` returns 404 on zero backend rows, 200 with the
unpacked payload on exactly one row, and 500 — never a silently chosen
row — on more than one row. -/
theorem c8_single_row_contract (ctl : APIController) (nm id : String)
    (ctx : APIContext) (kf : CField)
    (hfind : findContext ctl.contexts nm = some ctx)
    (htab : 1 ≤ ctx.tables.length)
    (hpri : (topPriFields ctx.model).getLast? = some kf) :
    (ctl.dbQuery (query_single_sql ctx kf id) = [] →
      context_query_single ctl nm id = (.err "", 404)) ∧
    (∀ r, ctl.dbQuery (query_single_sql ctx kf id) = [r] →
      context_query_single ctl nm id = (.obj (unpack_single ctx r), 200)) ∧
    (2 ≤ (ctl.dbQuery (query_single_sql ctx kf id)).length →
      context_query_single ctl nm id =
        (.err "Found more than expected contexts", 500)) := by
  have hred : context_query_single ctl nm id = querySingleResult ctl ctx kf id := by
    simp only [context_query_single, hfind]
    rw [if_neg (by omega)]
    rw [findKeyField_eq_lastPri, hpri]
  refine ⟨?_, ?_, ?_⟩
  · intro hq
    rw [hred]
    simp [querySingleResult, hq]
  · intro r hq
    rw [hred]
    simp [querySingleResult, hq]
  · intro hq
    rw [hred]
    have h0 : ((ctl.dbQuery (query_single_sql ctx kf id)).length == 0) = false := by
      rw [beq_eq_false_iff_ne]
      omega
    have h1 : ((ctl.dbQuery (query_single_sql ctx kf id)).length == 1) = false := by
      rw [beq_eq_false_iff_ne]
      omega
    simp [querySingleResult, h0, h1]

/-- C8 witness: an empty backend result yields the 404 empty response on the
orders context. -/
theorem c8_single_row_contract_witness :
    context_query_single ctlSingle "shop_orders" "7" = (.err "", 404) :=
  (c8_single_row_contract ctlSingle "shop_orders" "7" ordersCtx
    ⟨"id", "shop.orders.id", "id", "t1.id", "int(11)", false, "PRI", false,
      .norel, "ord-uuid-1"⟩ rfl (by decide) rfl).1 rfl

/-! ## Claim C7 — generated-id injection in `pack_single` -/

theorem Model.find?_some_hasKey : ∀ (m : Model) (k : String) (v : MVal),
    m.find? k = some v → m.hasKey k = true
  | .mnil, k, v, h => by simp [Model.find?] at h
  | .mcons k0 v0 rest, k, v, h => by
    simp only [Model.find?] at h
    simp only [Model.hasKey]
    by_cases he : (k0 == k) = true
    · simp [he]
    · simp only [he, Bool.false_eq_true, if_false] at h
      simp [he, Model.find?_some_hasKey rest k v h]

theorem triggerFor_of_find : ∀ (whole : Model) (k : String) (cf : CField),
    whole.find? k = some (.fld cf) → triggerFor whole (k ++ "_branch") = some cf
  | .mnil, k, cf, h => by simp [Model.find?] at h
  | .mcons k0 v0 rest, k, cf, h => by
    simp only [Model.find?] at h
    cases v0 with
    | br b =>
      have hne : (k0 == k) = false := by
        by_cases he : (k0 == k) = true
        · rw [he] at h
          simp at h
        · simpa using he
      rw [hne] at h
      simp only [Bool.false_eq_true, if_false] at h
      simpa [triggerFor] using triggerFor_of_find rest k cf h
    | fld f0 =>
      by_cases he : (k0 == k) = true
      · have hk0 : k0 = k := by simpa using he
        subst hk0
        rw [if_pos (by simp : (k0 == k0) = true)] at h
        have hv0 := Option.some.inj h
        simp only [triggerFor]
        rw [if_pos (by simp)]
        simp [MVal.fld.injEq] at hv0
        simp [hv0]
      · simp only [he, Bool.false_eq_true, if_false] at h
        simp only [triggerFor]
        rw [if_neg (by
          intro hcontra
          have heq : k0 = k := strAppend_cancel_right (by simpa using hcontra)
          simp [heq] at he)]
        exact triggerFor_of_find rest k cf h

theorem injectId_find : ∀ (p : Packed) (key nid : String),
    p.hasKey key = true → (injectId p key nid).find? key = some (.str nid)
  | .pnil, key, nid, h => by simp [Packed.hasKey] at h
  | .pcons k0 v0 rest, key, nid, h => by
    simp only [Packed.hasKey, Bool.or_eq_true] at h
    simp only [injectId, Packed.find?]
    by_cases he : (k0 == key) = true
    · simp [he]
    · rcases h with h | h
      · simp [he] at h
      · simp [he, injectId_find rest key nid h]

theorem packTop_ok_cons (c : APIContext) (whole : Model) (d : List (String × PVal))
    (k0 : String) (v0 : MVal) (rest : Model) (p : Packed)
    (hok : packTop c whole d (.mcons k0 v0 rest) = .ok p) :
    ∃ val r, p = .pcons k0 val r ∧ packTop c whole d rest = .ok r := by
  by_cases h1 : strContains k0 "_branch"
  · cases v0 with
    | fld f =>
      simp only [packTop, h1, Bool.not_true, Bool.false_eq_true, if_false] at hok
      obtain ⟨r, hr, h2⟩ := except_bind_ok _ _ _ hok
      exact ⟨.fldv f, r, by simpa using h2.symm, hr⟩
    | br b =>
      cases ht : triggerFor whole k0 with
      | none =>
        simp only [packTop, h1, Bool.not_true, Bool.false_eq_true, if_false, ht] at hok
        obtain ⟨r, hr, h2⟩ := except_bind_ok _ _ _ hok
        exact ⟨.pobj b.toPacked, r, by simpa using h2.symm, hr⟩
      | some f0 =>
        by_cases habs : (dGet d f0.apiName).isNone = true
        · cases hrel : f0.relation with
          | norel =>
            simp only [packTop, h1, Bool.not_true, Bool.false_eq_true, if_false, ht,
              hrel] at hok
            rw [if_pos habs] at hok
            simp at hok
          | rel rn rt =>
            simp only [packTop, h1, Bool.not_true, Bool.false_eq_true, if_false, ht,
              hrel] at hok
            rw [if_pos habs] at hok
            obtain ⟨bp, hbp, h2⟩ := except_bind_ok _ _ _ hok
            obtain ⟨r, hr, h3⟩ := except_bind_ok _ _ _ h2
            exact ⟨_, r, by simpa using h3.symm, hr⟩
        · simp only [packTop, h1, Bool.not_true, Bool.false_eq_true, if_false, ht] at hok
          rw [if_neg habs] at hok
          obtain ⟨r, hr, h2⟩ := except_bind_ok _ _ _ hok
          exact ⟨.pobj b.toPacked, r, by simpa using h2.symm, hr⟩
  · cases v0 with
    | br b =>
      simp only [packTop, h1, Bool.not_false, if_true] at hok
      simp at hok
    | fld tf =>
      cases hg : dGet d tf.apiName with
      | some val =>
        simp only [packTop, h1, Bool.not_false, if_true, hg] at hok
        obtain ⟨r, hr, h2⟩ := except_bind_ok _ _ _ hok
        exact ⟨val, r, by simpa using h2.symm, hr⟩
      | none =>
        by_cases hbk : whole.hasKey (k0 ++ "_branch") = true
        · cases hrel : tf.relation with
          | norel =>
            simp only [packTop, h1, Bool.not_false, if_true, hg, hbk, hrel] at hok
            simp at hok
          | rel rn rt =>
            simp only [packTop, h1, Bool.not_false, if_true, hg, hbk, if_true,
              hrel] at hok
            obtain ⟨r, hr, h2⟩ := except_bind_ok _ _ _ hok
            exact ⟨.str rt.genId, r, by simpa using h2.symm, hr⟩
        · have hbk' : whole.hasKey (k0 ++ "_branch") = false := by
            simpa using hbk
          by_cases hpri : strContains tf.key "PRI"
          · cases hts : c.tables with
            | nil =>
              simp only [packTop, h1, Bool.not_false, if_true, hg, hbk',
                Bool.false_eq_true, if_false, hpri, hts] at hok
              simp at hok
            | cons t0 ts =>
              simp only [packTop, h1, Bool.not_false, if_true, hg, hbk',
                Bool.false_eq_true, if_false, hpri, hts] at hok
              obtain ⟨r, hr, h2⟩ := except_bind_ok _ _ _ hok
              exact ⟨.str t0.genId, r, by simpa using h2.symm, hr⟩
          · have hpri' : strContains tf.key "PRI" = false := by simpa using hpri
            simp only [packTop, h1, Bool.not_false, if_true, hg, hbk',
              Bool.false_eq_true, if_false, hpri'] at hok
            simp at hok

theorem packRecLoop_ok_cons (whole : Model) (d : List (String × PVal))
    (k0 : String) (v0 : MVal) (rest : Model) (p : Packed)
    (hok : packRecLoop whole d (.mcons k0 v0 rest) = .ok p) :
    ∃ val r, p = .pcons k0 val r ∧ packRecLoop whole d rest = .ok r := by
  by_cases h1 : strContains k0 "_branch"
  · cases v0 with
    | fld f =>
      simp only [packRecLoop, h1, Bool.not_true, Bool.false_eq_true, if_false] at hok
      obtain ⟨r, hr, h2⟩ := except_bind_ok _ _ _ hok
      exact ⟨.fldv f, r, by simpa using h2.symm, hr⟩
    | br b =>
      cases ht : triggerFor whole k0 with
      | none =>
        simp only [packRecLoop, h1, Bool.not_true, Bool.false_eq_true, if_false,
          ht] at hok
        obtain ⟨r, hr, h2⟩ := except_bind_ok _ _ _ hok
        exact ⟨.pobj b.toPacked, r, by simpa using h2.symm, hr⟩
      | some f0 =>
        by_cases habs : (dGet d f0.apiName).isNone = true
        · cases hrel : f0.relation with
          | norel =>
            simp only [packRecLoop, h1, Bool.not_true, Bool.false_eq_true, if_false,
              ht, hrel] at hok
            rw [if_pos habs] at hok
            simp at hok
          | rel rn rt =>
            simp only [packRecLoop, h1, Bool.not_true, Bool.false_eq_true, if_false,
              ht, hrel] at hok
            rw [if_pos habs] at hok
            obtain ⟨bp, hbp, h2⟩ := except_bind_ok _ _ _ hok
            obtain ⟨r, hr, h3⟩ := except_bind_ok _ _ _ h2
            exact ⟨_, r, by simpa using h3.symm, hr⟩
        · simp only [packRecLoop, h1, Bool.not_true, Bool.false_eq_true, if_false,
            ht] at hok
          rw [if_neg habs] at hok
          obtain ⟨r, hr, h2⟩ := except_bind_ok _ _ _ hok
          exact ⟨.pobj b.toPacked, r, by simpa using h2.symm, hr⟩
  · cases v0 with
    | br b =>
      simp only [packRecLoop, h1, Bool.not_false, if_true] at hok
      simp at hok
    | fld tf =>
      cases hg : dGet d tf.apiName with
      | some val =>
        simp only [packRecLoop, h1, Bool.not_false, if_true, hg] at hok
        obtain ⟨r, hr, h2⟩ := except_bind_ok _ _ _ hok
        exact ⟨val, r, by simpa using h2.symm, hr⟩
      | none =>
        by_cases hbk : whole.hasKey (k0 ++ "_branch") = true
        · cases hrel : tf.relation with
          | norel =>
            simp only [packRecLoop, h1, Bool.not_false, if_true, hg, hbk, hrel] at hok
            simp at hok
          | rel rn rt =>
            simp only [packRecLoop, h1, Bool.not_false, if_true, hg, hbk, hrel] at hok
            obtain ⟨r, hr, h2⟩ := except_bind_ok _ _ _ hok
            exact ⟨.str rt.genId, r, by simpa using h2.symm, hr⟩
        · have hbk' : whole.hasKey (k0 ++ "_branch") = false := by
            simpa using hbk
          by_cases hpri : strContains tf.key "PRI"
          · simp only [packRecLoop, h1, Bool.not_false, if_true, hg, hbk',
              Bool.false_eq_true, if_false, hpri] at hok
            obtain ⟨r, hr, h2⟩ := except_bind_ok _ _ _ hok
            exact ⟨.str tf.parentGenId, r, by simpa using h2.symm, hr⟩
          · have hpri' : strContains tf.key "PRI" = false := by simpa using hpri
            simp only [packRecLoop, h1, Bool.not_false, if_true, hg, hbk',
              Bool.false_eq_true, if_false, hpri'] at hok
            simp at hok

theorem packRecLoop_ok_hasKey (whole : Model) (d : List (String × PVal)) :
    ∀ (m : Model) (p : Packed), packRecLoop whole d m = .ok p →
    ∀ key, p.hasKey key = m.hasKey key
  | .mnil, p, hok, key => by
    simp only [packRecLoop] at hok
    have hp : p = .pnil := by simpa using hok.symm
    subst hp
    rfl
  | .mcons k0 v0 rest, p, hok, key => by
    obtain ⟨val, r, hp, hr⟩ := packRecLoop_ok_cons whole d k0 v0 rest p hok
    subst hp
    simp only [Packed.hasKey, Model.hasKey,
      packRecLoop_ok_hasKey whole d rest r hr key]

theorem packTop_find_fld (c : APIContext) (whole : Model) (d : List (String × PVal)) :
    ∀ (m : Model) (p : Packed), packTop c whole d m = .ok p →
    ∀ (k : String) (cf : CField) (rn : String) (rt : Tbl),
    m.find? k = some (.fld cf) → strContains k "_branch" = false →
    dGet d cf.apiName = none → whole.hasKey (k ++ "_branch") = true →
    cf.relation = .rel rn rt →
    p.find? k = some (.str rt.genId)
  | .mnil, p, hok, k, cf, rn, rt, hfind, _, _, _, _ => by
    simp [Model.find?] at hfind
  | .mcons k0 v0 rest, p, hok, k, cf, rn, rt, hfind, hkc, habs, hbk, hrel => by
    by_cases he : (k0 == k) = true
    · have hk0 : k0 = k := by simpa using he
      subst hk0
      simp only [Model.find?] at hfind
      rw [if_pos (by simp : (k0 == k0) = true)] at hfind
      have hv0 := Option.some.inj hfind
      subst hv0
      simp only [packTop, hkc, Bool.not_false, if_true, habs, hbk, hrel] at hok
      obtain ⟨r, hr, h2⟩ := except_bind_ok _ _ _ hok
      have hp : p = .pcons k0 (.str rt.genId) r := by simpa using h2.symm
      subst hp
      simp [Packed.find?]
    · obtain ⟨val, r, hp, hr⟩ := packTop_ok_cons c whole d k0 v0 rest p hok
      subst hp
      simp only [Model.find?, he, Bool.false_eq_true, if_false] at hfind
      simp only [Packed.find?, he, Bool.false_eq_true, if_false]
      exact packTop_find_fld c whole d rest r hr k cf rn rt hfind hkc habs hbk hrel

theorem packTop_find_br (c : APIContext) (whole : Model) (d : List (String × PVal)) :
    ∀ (m : Model) (p : Packed), packTop c whole d m = .ok p →
    ∀ (kbr : String) (b : Model) (cf : CField) (rn : String) (rt : Tbl),
    m.find? kbr = some (.br b) → strContains kbr "_branch" = true →
    triggerFor whole kbr = some cf → dGet d cf.apiName = none →
    cf.relation = .rel rn rt →
    ∃ bp, packRecLoop b d b = .ok bp ∧
      p.find? kbr = some (.pobj (injectId bp
        (rt.dbName ++ "." ++ rt.tbName ++ "." ++ rn) rt.genId))
  | .mnil, p, hok, kbr, b, cf, rn, rt, hfind, _, _, _, _ => by
    simp [Model.find?] at hfind
  | .mcons k0 v0 rest, p, hok, kbr, b, cf, rn, rt, hfind, hkc, htr, habs, hrel => by
    by_cases he : (k0 == kbr) = true
    · have hk0 : k0 = kbr := by simpa using he
      subst hk0
      simp only [Model.find?] at hfind
      rw [if_pos (by simp : (k0 == k0) = true)] at hfind
      have hv0 := Option.some.inj hfind
      subst hv0
      simp only [packTop, hkc, Bool.not_true, Bool.false_eq_true, if_false, htr,
        hrel] at hok
      rw [if_pos (by simp [habs])] at hok
      obtain ⟨bp, hbp, h2⟩ := except_bind_ok _ _ _ hok
      obtain ⟨r, hr, h3⟩ := except_bind_ok _ _ _ h2
      have hp : p = .pcons k0 (.pobj (injectId bp
          (rt.dbName ++ "." ++ rt.tbName ++ "." ++ rn) rt.genId)) r := by
        simpa using h3.symm
      subst hp
      exact ⟨bp, hbp, by simp [Packed.find?]⟩
    · obtain ⟨val, r, hp, hr⟩ := packTop_ok_cons c whole d k0 v0 rest p hok
      subst hp
      simp only [Model.find?, he, Bool.false_eq_true, if_false] at hfind
      simp only [Packed.find?, he, Bool.false_eq_true, if_false]
      exact packTop_find_br c whole d rest r hr kbr b cf rn rt hfind hkc htr habs hrel

/-- C7: for every input dict in which the display name of a branch-triggering
foreign-key field is absent, `pack_single` synthesises a fresh id from the
RELATED table's generator, packs the branch recursively, and injects that id
into the branch entry whose key is the relation's target column — so the
parent-side foreign-key slot and the child's referenced column carry the
same freshly generated id. -/
theorem c7_branch_id_injection (c : APIContext) (d : List (String × PVal))
    (k : String) (cf : CField) (bm : Model) (rn : String) (rt : Tbl) (p : Packed)
    (hfld : c.model.find? k = some (.fld cf))
    (hk : strContains k "_branch" = false)
    (hbr : c.model.find? (k ++ "_branch") = some (.br bm))
    (hrel : cf.relation = .rel rn rt)
    (habs : dGet d cf.apiName = none)
    (hok : pack_single c d = .ok p) :
    p.find? k = some (.str rt.genId) ∧
    ∃ bp, packRecLoop bm d bm = .ok bp ∧
      p.find? (k ++ "_branch") =
        some (.pobj (injectId bp (rt.dbName ++ "." ++ rt.tbName ++ "." ++ rn) rt.genId)) ∧
      (bm.hasKey (rt.dbName ++ "." ++ rt.tbName ++ "." ++ rn) = true →
        (injectId bp (rt.dbName ++ "." ++ rt.tbName ++ "." ++ rn) rt.genId).find?
          (rt.dbName ++ "." ++ rt.tbName ++ "." ++ rn) = some (.str rt.genId)) := by
  have hbk : c.model.hasKey (k ++ "_branch") = true :=
    Model.find?_some_hasKey _ _ _ hbr
  have htr : triggerFor c.model (k ++ "_branch") = some cf :=
    triggerFor_of_find _ _ _ hfld
  have hkc : strContains (k ++ "_branch") "_branch" = true :=
    strContains_append_suffix k "_branch"
  constructor
  · exact packTop_find_fld c c.model d c.model p hok k cf rn rt hfld hk habs hbk hrel
  · obtain ⟨bp, hbp, hfind⟩ :=
      packTop_find_br c c.model d c.model p hok (k ++ "_branch") bm cf rn rt hbr
        hkc htr habs hrel
    refine ⟨bp, hbp, hfind, ?_⟩
    intro hbmk
    apply injectId_find
    rw [packRecLoop_ok_hasKey bm d bm bp hbp]
    exact hbmk

/-- C7 witness: on the orders context with `customer_id` absent from the
input, the foreign-key slot receives the customers table's generated id. -/
theorem c7_branch_id_injection_witness :
    packedEx.find? "shop.orders.customer_id" = some (.str customersTbl.genId) :=
  (c7_branch_id_injection ordersCtx
    [("id", .int 7), ("customer_id_name", .str "Ada")]
    "shop.orders.customer_id" _ _ "id" customersTbl packedEx
    rfl rfl rfl rfl rfl rfl).1

/-! ## Claim C1 — paging -/

theorem cqm_paged (ctl : APIController) (nm ps : String) (ctx : APIContext)
    (hfind : findContext ctl.contexts nm = some ctx)
    (htab : 1 ≤ ctx.tables.length)
    (hpl : ctl.page_lim ≠ 0)
    (hpage : ((flat_fields ctx).map (fun f => f.apiName)).contains "page" = false) :
    context_query_multiple ctl nm [("page", ps)] = pagedDispatch ctl ctx (pyInt ps) := by
  have hpl0 : (ctl.page_lim == 0) = false := by simpa using hpl
  have hne : (ctl.page_lim != 0) = true := by simp [bne, hpl0]
  have hhp : argsHasKey [("page", ps)] "page" = true := rfl
  have hhq : argsHasKey [("page", ps)] "q" = false := rfl
  have hob : argsHasKey [("page", ps)] "order_by" = false := rfl
  have hod : argsHasKey [("page", ps)] "order_dir" = false := rfl
  have hgp : argsGet [("page", ps)] "page" = ps := rfl
  have hn : NONSP_PARAMS.contains "page" = true := by decide
  have hc : strContains "page" "_comp" = false := by decide
  have hsql : ∀ m : Int,
      (if (strTakeRight (get_sql_parts ctx ++
          (if (ctx.joins.length != 0) = true then " \n\tAND " else "")) 4 == "AND ") = true then
        strDropRight (get_sql_parts ctx ++
          (if (ctx.joins.length != 0) = true then " \n\tAND " else "")) 5
      else (get_sql_parts ctx ++
          (if (ctx.joins.length != 0) = true then " \n\tAND " else ""))) ++
        "\nLIMIT " ++ toString m ++ ";" = pagedSql ctx m := by
    intro m
    cases hjs : ctx.joins with
    | nil =>
      simp only [List.length_nil]
      simp only [show ((0 : Nat) != 0) = false from rfl]
      simp only [Bool.false_eq_true, if_false]
      rw [String.append_empty]
      rw [get_sql_parts_nojoins ctx hjs]
      rw [strTakeRight_append _ _ 4 (by decide)]
      rw [if_neg (by decide)]
      simp only [pagedSql, hjs, List.length_nil]
      simp only [show ((0 : Nat) != 0) = false from rfl]
      simp only [Bool.false_eq_true, if_false]
      rw [String.append_empty, get_sql_parts_nojoins ctx hjs]
    | cons j js =>
      simp only [show ((j :: js).length != 0) = true from by simp]
      simp only [if_true]
      rw [strTakeRight_append _ _ 4 (by decide)]
      rw [if_pos (by decide)]
      rw [strDropRight_append _ " \n\tAND " 5 (by decide)]
      rw [show strDropRight " \n\tAND " 5 = " \n" from rfl]
      simp only [pagedSql, hjs]
      simp only [show ((j :: js).length != 0) = true from by simp]
      simp only [if_true]
  simp only [context_query_multiple, hfind]
  rw [if_neg (by omega)]
  simp only [hhp, hhq, hob, hod, hgp, hpl0, hne, hn, hc, Bool.true_and, Bool.false_and,
    Bool.and_false, Bool.not_true, Bool.not_false, Bool.false_eq_true, if_false,
    if_true, Bool.or_self, List.find?]
  simp only [applyFilters, hc, hpage, Bool.not_false, Bool.true_and,
    Bool.false_eq_true, if_false]
  rw [hsql (pyInt ps * ctl.page_lim)]
  rfl

/-- C1 (amended): with `page_lim = 10` against a 25-row backend table,
`page=1` returns exactly 10 rows with status 200, as claimed; but `page=3`
does NOT return the remaining 5 rows — the out-of-range check
`page*page_lim - 1 = 29 ≥ 25` fires and the empty list is returned with
404; `page=4` returns the empty list with 404 (as claimed). -/
theorem c1_paging_amended (ctl : APIController) (nm : String) (ctx : APIContext)
    (db : List (List Int))
    (hfind : findContext ctl.contexts nm = some ctx)
    (htab : 1 ≤ ctx.tables.length)
    (hpl : ctl.page_lim = 10)
    (hpage : ((flat_fields ctx).map (fun f => f.apiName)).contains "page" = false)
    (hdb : db.length = 25)
    (hq1 : ctl.dbQuery (pagedSql ctx 10) = db.take 10)
    (hq3 : ctl.dbQuery (pagedSql ctx 30) = db.take 30)
    (hq4 : ctl.dbQuery (pagedSql ctx 40) = db.take 40) :
    ((context_query_multiple ctl nm [("page", "1")]).2 = 200 ∧
      ∃ l, (context_query_multiple ctl nm [("page", "1")]).1 = ApiResp.items l ∧
        l.length = 10) ∧
    context_query_multiple ctl nm [("page", "3")] = (.items [], 404) ∧
    context_query_multiple ctl nm [("page", "4")] = (.items [], 404) := by
  have hpl' : ctl.page_lim ≠ 0 := by rw [hpl]; norm_num
  have h1 := cqm_paged ctl nm "1" ctx hfind htab hpl' hpage
  have h3 := cqm_paged ctl nm "3" ctx hfind htab hpl' hpage
  have h4 := cqm_paged ctl nm "4" ctx hfind htab hpl' hpage
  rw [show pyInt "1" = 1 from rfl] at h1
  rw [show pyInt "3" = 3 from rfl] at h3
  rw [show pyInt "4" = 4 from rfl] at h4
  have hlen10 : (db.take 10).length = 10 := by
    rw [List.length_take, hdb]
    norm_num
  have hlen30 : (db.take 30).length = 25 := by
    rw [List.length_take, hdb]
    norm_num
  have hlen40 : (db.take 40).length = 25 := by
    rw [List.length_take, hdb]
    norm_num
  have hm10 : ((db.take 10).map (fun row => unpack_single ctx row)).length = 10 := by
    rw [List.length_map, hlen10]
  have hm30 : ((db.take 30).map (fun row => unpack_single ctx row)).length = 25 := by
    rw [List.length_map, hlen30]
  have hm40 : ((db.take 40).map (fun row => unpack_single ctx row)).length = 25 := by
    rw [List.length_map, hlen40]
  have e1 : pagedDispatch ctl ctx 1 =
      (.items ((db.take 10).map (fun row => unpack_single ctx row)), 200) := by
    simp only [pagedDispatch, hpl]
    rw [show (1 : Int) * 10 = 10 from by norm_num, hq1]
    rw [if_neg (by rw [hlen10]; decide)]
    rw [if_neg (by rw [hm10]; decide)]
    have hsl : pySliceFrom ((db.take 10).map (fun row => unpack_single ctx row))
        (-1 * 10) = (db.take 10).map (fun row => unpack_single ctx row) := by
      simp only [pySliceFrom, hm10]
      norm_num
    rw [hsl]
  have e3 : pagedDispatch ctl ctx 3 = (.items [], 404) := by
    simp only [pagedDispatch, hpl]
    rw [show (3 : Int) * 10 = 30 from by norm_num, hq3]
    rw [if_neg (by rw [hlen30]; decide)]
    rw [if_pos (by rw [hm30]; decide)]
  have e4 : pagedDispatch ctl ctx 4 = (.items [], 404) := by
    simp only [pagedDispatch, hpl]
    rw [show (4 : Int) * 10 = 40 from by norm_num, hq4]
    rw [if_neg (by rw [hlen40]; decide)]
    rw [if_pos (by rw [hm40]; decide)]
  refine ⟨?_, ?_, ?_⟩
  · rw [h1, e1]
    exact ⟨rfl, (db.take 10).map (fun row => unpack_single ctx row), rfl, hm10⟩
  · rw [h3, e3]
  · rw [h4, e4]

/-- C1 counterexample: on a concrete paging controller (`page_lim = 10`)
over a 25-row backend table, `page=3` returns the empty list with 404 — not
the remaining 5 rows with 200 that the claim states (while `page=1` does
return 10 rows with 200). -/
theorem c1_paging_counterexample :
    rows25.length = 25 ∧
    ctlPaged.page_lim = 10 ∧
    context_query_multiple ctlPaged "shop_customers" [("page", "3")] =
      (.items [], 404) ∧
    (context_query_multiple ctlPaged "shop_customers" [("page", "1")]).2 = 200 :=
  ⟨rfl, rfl, rfl, rfl⟩

/-- C1 witness: the amended theorem applied to the concrete paging
controller. -/
theorem c1_paging_amended_witness :
    ((context_query_multiple ctlPaged "shop_customers" [("page", "1")]).2 = 200 ∧
      ∃ l, (context_query_multiple ctlPaged "shop_customers" [("page", "1")]).1 =
        ApiResp.items l ∧ l.length = 10) ∧
    context_query_multiple ctlPaged "shop_customers" [("page", "3")] =
      (.items [], 404) ∧
    context_query_multiple ctlPaged "shop_customers" [("page", "4")] =
      (.items [], 404) :=
  c1_paging_amended ctlPaged "shop_customers" customersCtx rows25 rfl (by decide)
    rfl (by decide) rfl rfl rfl rfl

/-! ## Claim C2 — flattening order, SELECT order, positional unpacking -/

theorem listStartsWith_sep (c : Char) (ys : List Char) :
    ∀ (p xs : List Char), c ∉ p → listStartsWith p (xs ++ c :: ys) = true →
    listStartsWith p xs = true := by
  intro p
  induction p with
  | nil => intro xs _ _; rfl
  | cons a p' ih =>
    intro xs hc hsw
    cases xs with
    | nil =>
      simp only [List.nil_append, listStartsWith, Bool.and_eq_true, beq_iff_eq] at hsw
      exact absurd (hsw.1 ▸ List.mem_cons_self a p') (by simpa [hsw.1] using hc)
    | cons x xs' =>
      simp only [List.cons_append, listStartsWith, Bool.and_eq_true] at hsw ⊢
      exact ⟨hsw.1, ih xs' (fun hm => hc (List.mem_cons_of_mem a hm)) hsw.2⟩

theorem listHasSub_sep (c : Char) (p : List Char) (hc : c ∉ p) :
    ∀ (xs ys : List Char), listHasSub p (xs ++ c :: ys) = true →
    listHasSub p xs = true ∨ listHasSub p ys = true := by
  intro xs
  induction xs with
  | nil =>
    intro ys h
    simp only [List.nil_append, listHasSub, Bool.or_eq_true] at h
    rcases h with h | h
    · cases p with
      | nil => exact Or.inl rfl
      | cons a p' =>
        simp only [listStartsWith, Bool.and_eq_true, beq_iff_eq] at h
        exact absurd (h.1 ▸ List.mem_cons_self a p') (by simpa [h.1] using hc)
    · exact Or.inr h
  | cons x xs' ih =>
    intro ys h
    simp only [List.cons_append, listHasSub, Bool.or_eq_true] at h
    rcases h with h | h
    · have := listStartsWith_sep c ys p (x :: xs') hc (by simpa using h)
      exact Or.inl (by simp [listHasSub, this])
    · rcases ih ys h with h1 | h1
      · exact Or.inl (by simp [listHasSub, h1])
      · exact Or.inr h1

theorem strContains_dot_sep (a b : String) :
    strContains (a ++ "." ++ b) "_branch" = true →
    strContains a "_branch" = true ∨ strContains b "_branch" = true := by
  intro h
  have hdata : (a ++ "." ++ b).data = a.data ++ '.' :: b.data := by
    simp [String.data_append]
  simp only [strContains, hdata] at h
  exact listHasSub_sep '.' ("_branch").data (by decide) a.data b.data h

theorem fq_not_contains (dbN tbN nm : String)
    (hdb : strContains dbN "_branch" = false)
    (htb : strContains tbN "_branch" = false)
    (hnm : strContains nm "_branch" = false) :
    strContains (dbN ++ "." ++ tbN ++ "." ++ nm) "_branch" = false := by
  cases hx : strContains (dbN ++ "." ++ tbN ++ "." ++ nm) "_branch" with
  | false => rfl
  | true =>
    exfalso
    rcases strContains_dot_sep (dbN ++ "." ++ tbN) nm hx with h1 | h1
    · rcases strContains_dot_sep dbN tbN h1 with h2 | h2
      · rw [hdb] at h2; cases h2
      · rw [htb] at h2; cases h2
    · rw [hnm] at h1; cases h1

theorem str_ne_append_branch (s : String) : s ≠ s ++ "_branch" := by
  intro h
  have hlen := congrArg String.length h
  rw [String.length_append] at hlen
  have h7 : ("_branch" : String).length = 7 := rfl
  omega

theorem fq_name_cancel (dbN tbN nm1 nm2 : String)
    (h : dbN ++ "." ++ tbN ++ "." ++ nm1 = dbN ++ "." ++ tbN ++ "." ++ nm2) :
    nm1 = nm2 := by
  have h1 : (dbN ++ "." ++ tbN ++ ".") ++ nm1 = (dbN ++ "." ++ tbN ++ ".") ++ nm2 := by
    rw [String.append_assoc, String.append_assoc] at h ⊢
    rw [String.append_assoc, String.append_assoc] at h ⊢
    exact h
  exact strAppend_cancel_left h1

theorem fq_eq_branch_contains (dbN tbN nm1 nm2 : String)
    (h : dbN ++ "." ++ tbN ++ "." ++ nm1 = (dbN ++ "." ++ tbN ++ "." ++ nm2) ++ "_branch") :
    strContains nm1 "_branch" = true := by
  have h2 : dbN ++ "." ++ tbN ++ "." ++ nm1 = dbN ++ "." ++ tbN ++ "." ++ (nm2 ++ "_branch") := by
    rw [h]
    rw [String.append_assoc]
  have := fq_name_cancel dbN tbN nm1 (nm2 ++ "_branch") h2
  rw [this]
  exact strContains_append_suffix nm2 "_branch"

theorem mem_fieldNames : ∀ (fs : FldList) (f : Fld),
    f ∈ fs.toList → f.name ∈ fieldNames fs
  | .fcons g rest, f, h => by
    simp only [FldList.toList] at h
    simp only [fieldNames]
    rcases List.mem_cons.mp h with h | h
    · rw [h]; exact List.mem_cons_self _ _
    · exact List.mem_cons_of_mem _ (mem_fieldNames rest f h)

theorem nodupStr_cons {x : String} {rest : List String}
    (h : nodupStr (x :: rest) = true) : ¬ x ∈ rest ∧ nodupStr rest = true := by
  simp only [nodupStr, Bool.and_eq_true, Bool.not_eq_true'] at h
  refine ⟨fun hm => ?_, h.2⟩
  have h1 := h.1
  simp at h1
  exact h1 hm

theorem genFields_keys (dbN tbN gid tid pref : String) :
    ∀ (fs : FldList) (st : GenState),
    (genFields dbN tbN gid tid pref fs st).1.keys = levelKeys dbN tbN fs
  | .fnil, st => rfl
  | .fcons (.mk i nm ty nb ky df .norel) rest, st => by
    simp only [genFields, Model.keys, levelKeys, Fld.relation]
    rw [genFields_keys dbN tbN gid tid pref rest st]
    simp
  | .fcons (.mk i nm ty nb ky df (.rel rn rt)) rest, st => by
    simp only [genFields, Model.keys, levelKeys, Fld.relation]
    rw [genFields_keys dbN tbN gid tid pref rest _]
    simp

theorem model_find_some_mem_keys : ∀ (m : Model) (k : String) (v : MVal),
    m.find? k = some v → k ∈ m.keys
  | .mnil, k, v, h => by simp [Model.find?] at h
  | .mcons k0 v0 rest, k, v, h => by
    simp only [Model.find?] at h
    simp only [Model.keys]
    by_cases he : k0 = k
    · rw [he]; exact List.mem_cons_self _ _
    · rw [if_neg (by simp [he])] at h
      exact List.mem_cons_of_mem _ (model_find_some_mem_keys rest k v h)

theorem model_hasKey_iff_mem : ∀ (m : Model) (k : String),
    m.hasKey k = true ↔ k ∈ m.keys
  | .mnil, k => by simp [Model.hasKey, Model.keys]
  | .mcons k0 v0 rest, k => by
    simp only [Model.hasKey, Model.keys, Bool.or_eq_true, beq_iff_eq,
      List.mem_cons]
    rw [model_hasKey_iff_mem rest k]
    constructor
    · rintro (h | h)
      · exact Or.inl h.symm
      · exact Or.inr h
    · rintro (h | h)
      · exact Or.inl h.symm
      · exact Or.inr h

theorem not_mem_levelKeys_branch (dbN tbN nm : String) :
    ∀ (fs : FldList), fldsWF fs = true → ¬ nm ∈ fieldNames fs →
    ¬ ((dbN ++ "." ++ tbN ++ "." ++ nm) ++ "_branch") ∈ levelKeys dbN tbN fs
  | .fnil, _, _ => by simp [levelKeys]
  | .fcons (.mk i nm2 ty nb ky df r) rest, hwf, hnm => by
    obtain ⟨⟨h1, h2⟩, h3⟩ : (strContains nm2 "_branch" = false ∧ relWF r = true) ∧
        fldsWF rest = true := by
      simpa [fldsWF, Bool.and_eq_true, Bool.not_eq_true'] using hwf
    have hnmr : ¬ nm ∈ fieldNames rest := fun hm =>
      hnm (by simp only [fieldNames]; exact List.mem_cons_of_mem _ hm)
    have hne1 : ¬ fldFq dbN tbN (Fld.mk i nm2 ty nb ky df r) =
        (dbN ++ "." ++ tbN ++ "." ++ nm) ++ "_branch" := fun he => by
      have := fq_eq_branch_contains dbN tbN nm2 nm (by
        simpa [fldFq, Fld.name] using he)
      rw [h1] at this; cases this
    have hne2 : ¬ fldFq dbN tbN (Fld.mk i nm2 ty nb ky df r) ++ "_branch" =
        (dbN ++ "." ++ tbN ++ "." ++ nm) ++ "_branch" := fun he => by
      have hfq := strAppend_cancel_right he
      have hnn : nm2 = nm := fq_name_cancel dbN tbN nm2 nm (by
        simpa [fldFq, Fld.name] using hfq)
      exact hnm (by simp only [fieldNames, Fld.name]; rw [← hnn]
                    exact List.mem_cons_self _ _)
    intro hmem
    simp only [levelKeys, Fld.relation] at hmem
    cases r with
    | norel =>
      rcases List.mem_append.mp hmem with h | h
      · rcases List.mem_singleton.mp h with h
        exact hne1 h.symm
      · exact not_mem_levelKeys_branch dbN tbN nm rest h3 hnmr h
    | rel rn rt =>
      rcases List.mem_append.mp hmem with h | h
      · rcases List.mem_cons.mp h with h | h
        · exact hne1 h.symm
        · rcases List.mem_singleton.mp h with h
          exact hne2 h.symm
      · exact not_mem_levelKeys_branch dbN tbN nm rest h3 hnmr h

theorem not_mem_levelKeys_plain (dbN tbN nm : String)
    (hnb : strContains nm "_branch" = false) :
    ∀ (fs : FldList), fldsWF fs = true → ¬ nm ∈ fieldNames fs →
    ¬ (dbN ++ "." ++ tbN ++ "." ++ nm) ∈ levelKeys dbN tbN fs
  | .fnil, _, _ => by simp [levelKeys]
  | .fcons (.mk i nm2 ty nb ky df r) rest, hwf, hnm => by
    obtain ⟨⟨h1, h2⟩, h3⟩ : (strContains nm2 "_branch" = false ∧ relWF r = true) ∧
        fldsWF rest = true := by
      simpa [fldsWF, Bool.and_eq_true, Bool.not_eq_true'] using hwf
    have hnmr : ¬ nm ∈ fieldNames rest := fun hm =>
      hnm (by simp only [fieldNames]; exact List.mem_cons_of_mem _ hm)
    have hne1 : ¬ fldFq dbN tbN (Fld.mk i nm2 ty nb ky df r) =
        dbN ++ "." ++ tbN ++ "." ++ nm := fun he => by
      have hnn : nm2 = nm := fq_name_cancel dbN tbN nm2 nm (by
        simpa [fldFq, Fld.name] using he)
      exact hnm (by simp only [fieldNames, Fld.name]; rw [← hnn]
                    exact List.mem_cons_self _ _)
    have hne2 : ¬ fldFq dbN tbN (Fld.mk i nm2 ty nb ky df r) ++ "_branch" =
        dbN ++ "." ++ tbN ++ "." ++ nm := fun he => by
      have := fq_eq_branch_contains dbN tbN nm nm2 (by
        simpa [fldFq, Fld.name] using he.symm)
      rw [hnb] at this; cases this
    intro hmem
    simp only [levelKeys, Fld.relation] at hmem
    cases r with
    | norel =>
      rcases List.mem_append.mp hmem with h | h
      · rcases List.mem_singleton.mp h with h
        exact hne1 h.symm
      · exact not_mem_levelKeys_plain dbN tbN nm hnb rest h3 hnmr h
    | rel rn rt =>
      rcases List.mem_append.mp hmem with h | h
      · rcases List.mem_cons.mp h with h | h
        · exact hne1 h.symm
        · rcases List.mem_singleton.mp h with h
          exact hne2 h.symm
      · exact not_mem_levelKeys_plain dbN tbN nm hnb rest h3 hnmr h

theorem mem_levelKeys_branch_of_rel (dbN tbN : String) :
    ∀ (fs : FldList) (f : Fld), f ∈ fs.toList → f.relation.isRel = true →
    (fldFq dbN tbN f ++ "_branch") ∈ levelKeys dbN tbN fs
  | .fcons g rest, f, hmem, hrel => by
    simp only [FldList.toList] at hmem
    simp only [levelKeys]
    rcases List.mem_cons.mp hmem with h | h
    · subst h
      cases hr : f.relation with
      | norel => rw [hr] at hrel; simp [RelOpt.isRel] at hrel
      | rel rn rt =>
        exact List.mem_append.mpr (Or.inl (by simp))
    · exact List.mem_append.mpr
        (Or.inr (mem_levelKeys_branch_of_rel dbN tbN rest f h hrel))

theorem levelKeys_branch_mem_rel (dbN tbN : String) :
    ∀ (fs : FldList) (f : Fld), fldsWF fs = true →
    nodupStr (fieldNames fs) = true → f ∈ fs.toList →
    (fldFq dbN tbN f ++ "_branch") ∈ levelKeys dbN tbN fs →
    f.relation.isRel = true
  | .fcons (.mk i nm2 ty nb ky df r) rest, f, hwf, hnd, hmem, hkey => by
    obtain ⟨⟨h1, h2⟩, h3⟩ :
        (strContains nm2 "_branch" = false ∧ relWF r = true) ∧
        fldsWF rest = true := by
      simpa [fldsWF, Bool.and_eq_true, Bool.not_eq_true'] using hwf
    obtain ⟨hnotin, hnd2⟩ := nodupStr_cons
      (show nodupStr (nm2 :: fieldNames rest) = true by
        simpa [fieldNames, Fld.name] using hnd)
    simp only [FldList.toList] at hmem
    rcases List.mem_cons.mp hmem with hf | hf
    · cases r with
      | rel rn rt => rw [hf]; simp [Fld.relation, RelOpt.isRel]
      | norel =>
        exfalso
        rw [hf] at hkey
        simp only [levelKeys, Fld.relation] at hkey
        rcases List.mem_append.mp hkey with h | h
        · rcases List.mem_singleton.mp h with h
          exact str_ne_append_branch _ h.symm
        · exact not_mem_levelKeys_branch dbN tbN nm2 rest h3 hnotin
            (by simpa [fldFq, Fld.name] using h)
    · simp only [levelKeys, Fld.relation] at hkey
      have hnmem : f.name ∈ fieldNames rest := mem_fieldNames rest f hf
      rcases List.mem_append.mp hkey with h | h
      · exfalso
        cases r with
        | norel =>
          rcases List.mem_singleton.mp h with h
          have := fq_eq_branch_contains dbN tbN nm2 f.name (by
            simpa [fldFq, Fld.name] using h.symm)
          rw [h1] at this; cases this
        | rel rn rt =>
          rcases List.mem_cons.mp h with h | h
          · have := fq_eq_branch_contains dbN tbN nm2 f.name (by
              simpa [fldFq, Fld.name] using h.symm)
            rw [h1] at this; cases this
          · rcases List.mem_singleton.mp h with h
            have hfq := strAppend_cancel_right h
            have : f.name = nm2 := fq_name_cancel dbN tbN f.name nm2 (by
              simpa [fldFq, Fld.name] using hfq)
            exact hnotin (this ▸ hnmem)
      · exact levelKeys_branch_mem_rel dbN tbN rest f h3 hnd2 hf h

theorem genFields_hasKey_branch (dbN tbN gid tid pref : String)
    (fs : FldList) (st : GenState) (f : Fld)
    (hwf : fldsWF fs = true) (hnd : nodupStr (fieldNames fs) = true)
    (hmem : f ∈ fs.toList) :
    (genFields dbN tbN gid tid pref fs st).1.hasKey
      (fldFq dbN tbN f ++ "_branch") = f.relation.isRel := by
  by_cases hm : (fldFq dbN tbN f ++ "_branch") ∈ levelKeys dbN tbN fs
  · have hk : (genFields dbN tbN gid tid pref fs st).1.hasKey
        (fldFq dbN tbN f ++ "_branch") = true :=
      (model_hasKey_iff_mem _ _).mpr
        (by rw [genFields_keys dbN tbN gid tid pref fs st]; exact hm)
    rw [hk, levelKeys_branch_mem_rel dbN tbN fs f hwf hnd hmem hm]
  · have hk : ¬ (genFields dbN tbN gid tid pref fs st).1.hasKey
        (fldFq dbN tbN f ++ "_branch") = true := fun h => hm (by
      rw [← genFields_keys dbN tbN gid tid pref fs st]
      exact (model_hasKey_iff_mem _ _).mp h)
    simp only [Bool.not_eq_true] at hk
    cases hr : f.relation.isRel with
    | true => exact absurd (mem_levelKeys_branch_of_rel dbN tbN fs f hmem hr) hm
    | false => rw [hk]

theorem tvIter_nil (whole : Model) : tvIter whole .mnil = .tnil := by
  rw [tvIter.eq_def]

theorem tvIter_cons (whole : Model) (k : String) (v : MVal) (rest : Model) :
    tvIter whole (.mcons k v rest) =
      if !strContains k "_branch" && !whole.hasKey (k ++ "_branch") then
        (match v with
          | .fld f => .tcons f.apiName (.leaf f.typ) (tvIter whole rest)
          | .br _ => tvIter whole rest)
      else if !strContains k "_branch" then
        (match v with
          | .fld f =>
            .tcons f.apiName (.obj (tvLookup whole (k ++ "_branch")))
              (tvIter whole rest)
          | .br _ => tvIter whole rest)
      else tvIter whole rest := by
  rw [tvIter.eq_def]

theorem tvLookup_cons (k0 : String) (v0 : MVal) (rest : Model) (key : String) :
    tvLookup (.mcons k0 v0 rest) key =
      if k0 == key then
        (match v0 with | .br b => tvIter b b | .fld _ => .tnil)
      else tvLookup rest key := by
  rw [tvLookup.eq_def]

theorem tvLookup_eq_of_find : ∀ (m : Model) (k : String) (b : Model),
    m.find? k = some (.br b) → tvLookup m k = tvIter b b
  | .mnil, k, b, h => by simp [Model.find?] at h
  | .mcons k0 v0 rest, k, b, h => by
    simp only [Model.find?] at h
    by_cases he : k0 = k
    · rw [if_pos (by simp [he])] at h
      have hv : v0 = .br b := Option.some.inj h
      rw [tvLookup_cons, if_pos (show (k0 == k) = true by simp [he]), hv]
    · rw [if_neg (by simp [he])] at h
      rw [tvLookup_cons, if_neg (show ¬ (k0 == k) = true by simp [he])]
      exact tvLookup_eq_of_find rest k b h

/-! The central C2 correspondence: the flattening of a compiled level equals
the spec-side order, and compilation advances the table count identically. -/

mutual

theorem flat_level : ∀ (dbN tbN gid tid pref : String) (fs : FldList)
    (st : GenState) (W : Model),
    strContains dbN "_branch" = false → strContains tbN "_branch" = false →
    fldsWF fs = true →
    (∀ f, f ∈ fs.toList →
      W.hasKey (fldFq dbN tbN f ++ "_branch") = f.relation.isRel) →
    flatAux W (genFields dbN tbN gid tid pref fs st).1 =
      (specFlatFields dbN tbN gid tid pref st.tables.length fs).1 ∧
    (genFields dbN tbN gid tid pref fs st).2.tables.length =
      (specFlatFields dbN tbN gid tid pref st.tables.length fs).2
  | dbN, tbN, gid, tid, pref, .fnil, st, W => fun _ _ _ _ => ⟨rfl, rfl⟩
  | dbN, tbN, gid, tid, pref, .fcons (.mk i nm ty nb ky df .norel) rest, st, W =>
    fun hdb htb hwf hW => by
    obtain ⟨⟨h1, h2⟩, h3⟩ :
        (strContains nm "_branch" = false ∧ relWF RelOpt.norel = true) ∧
        fldsWF rest = true := by
      simpa [fldsWF, Bool.and_eq_true, Bool.not_eq_true'] using hwf
    have hfq : strContains
        (fldFq dbN tbN (Fld.mk i nm ty nb ky df RelOpt.norel)) "_branch" =
        false := by
      simpa [fldFq, Fld.name] using fq_not_contains dbN tbN nm hdb htb h1
    have hhk : W.hasKey
        (fldFq dbN tbN (Fld.mk i nm ty nb ky df RelOpt.norel) ++ "_branch") =
        false := by
      have := hW (Fld.mk i nm ty nb ky df RelOpt.norel) (by simp [FldList.toList])
      simpa [Fld.relation, RelOpt.isRel] using this
    have hWr : ∀ f, f ∈ rest.toList →
        W.hasKey (fldFq dbN tbN f ++ "_branch") = f.relation.isRel := fun f hf =>
      hW f (by simp only [FldList.toList]; exact List.mem_cons_of_mem _ hf)
    obtain ⟨ih1, ih2⟩ := flat_level dbN tbN gid tid pref rest st W hdb htb h3 hWr
    constructor
    · simp only [genFields, specFlatFields, flatAux, hfq, hhk, Bool.not_false,
        Bool.and_self, if_true, List.singleton_append]
      rw [ih1]
    · simp only [genFields, specFlatFields]
      exact ih2
  | dbN, tbN, gid, tid, pref, .fcons (.mk i nm ty nb ky df (.rel rn rt)) rest, st, W =>
    fun hdb htb hwf hW => by
    obtain ⟨⟨h1, h2⟩, h3⟩ :
        (strContains nm "_branch" = false ∧ relWF (RelOpt.rel rn rt) = true) ∧
        fldsWF rest = true := by
      simpa [fldsWF, Bool.and_eq_true, Bool.not_eq_true'] using hwf
    have htwf : tblWF rt = true := by simpa [relWF] using h2
    have hfq : strContains
        (fldFq dbN tbN (Fld.mk i nm ty nb ky df (RelOpt.rel rn rt))) "_branch" =
        false := by
      simpa [fldFq, Fld.name] using fq_not_contains dbN tbN nm hdb htb h1
    have hhk : W.hasKey
        (fldFq dbN tbN (Fld.mk i nm ty nb ky df (RelOpt.rel rn rt)) ++
          "_branch") = true := by
      have := hW (Fld.mk i nm ty nb ky df (RelOpt.rel rn rt))
        (by simp [FldList.toList])
      simpa [Fld.relation, RelOpt.isRel] using this
    have hbr : strContains
        (fldFq dbN tbN (Fld.mk i nm ty nb ky df (RelOpt.rel rn rt)) ++
          "_branch") "_branch" = true := strContains_append_suffix _ _
    have hWr : ∀ f, f ∈ rest.toList →
        W.hasKey (fldFq dbN tbN f ++ "_branch") = f.relation.isRel := fun f hf =>
      hW f (by simp only [FldList.toList]; exact List.mem_cons_of_mem _ hf)
    obtain ⟨bh1, bh2⟩ := flat_tbl
      ((mkCField dbN tbN gid tid pref
        (Fld.mk i nm ty nb ky df (RelOpt.rel rn rt))).apiName ++ "_") rt
      { st with joins := st.joins ++
        [tid ++ "." ++ (Fld.mk i nm ty nb ky df (RelOpt.rel rn rt)).name ++
          " = t" ++ toString (st.tables.length + 1) ++ "." ++ rn] } htwf
    obtain ⟨ih1, ih2⟩ := flat_level dbN tbN gid tid pref rest
      (branchRel ((mkCField dbN tbN gid tid pref
        (Fld.mk i nm ty nb ky df (RelOpt.rel rn rt))).apiName ++ "_") rt
        { st with joins := st.joins ++
          [tid ++ "." ++ (Fld.mk i nm ty nb ky df (RelOpt.rel rn rt)).name ++
            " = t" ++ toString (st.tables.length + 1) ++ "." ++ rn] }).2 W
      hdb htb h3 hWr
    have hproj : ∀ X : List String,
        (GenState.mk st.tables X).tables.length = st.tables.length :=
      fun _ => rfl
    simp only [hproj] at bh1 bh2 ih1 ih2
    constructor
    · simp only [genFields, specFlatFields, flatAux, hfq, hhk, hbr,
        Bool.not_false, Bool.not_true, Bool.and_false, Bool.false_and,
        Bool.false_eq_true, if_false, if_true, List.nil_append]
      rw [bh1, ih1, bh2]
    · simp only [genFields, specFlatFields]
      rw [ih2, bh2]

theorem flat_tbl : ∀ (pref : String) (rt : Tbl) (st : GenState),
    tblWF rt = true →
    flatAux (branchRel pref rt st).1 (branchRel pref rt st).1 =
      (specFlatTbl pref rt st.tables.length).1 ∧
    (branchRel pref rt st).2.tables.length =
      (specFlatTbl pref rt st.tables.length).2
  | pref, .mk dbN tbN gid fs, st => fun hwf => by
    obtain ⟨⟨⟨hdb, htb⟩, hnd⟩, hflds⟩ :
        ((strContains dbN "_branch" = false ∧
          strContains tbN "_branch" = false) ∧
          nodupStr (fieldNames fs) = true) ∧ fldsWF fs = true := by
      simpa [tblWF, Bool.and_eq_true, Bool.not_eq_true'] using hwf
    have hW : ∀ f, f ∈ fs.toList →
        (genFields dbN tbN gid ("t" ++ toString (st.tables.length + 1)) pref fs
          { st with tables := st.tables ++
            [⟨dbN ++ "." ++ tbN, "t" ++ toString (st.tables.length + 1), gid⟩] }).1.hasKey
          (fldFq dbN tbN f ++ "_branch") = f.relation.isRel := fun f hf =>
      genFields_hasKey_branch dbN tbN gid _ pref fs _ f hflds hnd hf
    obtain ⟨a1, a2⟩ := flat_level dbN tbN gid
      ("t" ++ toString (st.tables.length + 1)) pref fs
      { st with tables := st.tables ++
        [⟨dbN ++ "." ++ tbN, "t" ++ toString (st.tables.length + 1), gid⟩] }
      _ hdb htb hflds hW
    simp only [List.length_append, List.length_cons, List.length_nil,
      Nat.zero_add] at a1 a2
    constructor
    · simp only [branchRel, specFlatTbl]
      exact a1
    · simp only [branchRel, specFlatTbl]
      exact a2

end

/-! The typed-view / unpack side of C2: the leaves of an unpacked row, in
depth-first order, are exactly the flattened fields paired with the row value
at their `lastMatchIdx` position. -/

mutual

theorem types_level : ∀ (dbN tbN gid tid pref : String) (fs : FldList)
    (st : GenState) (W : Model) (fields : List CField) (values : List Int),
    strContains dbN "_branch" = false → strContains tbN "_branch" = false →
    nodupStr (fieldNames fs) = true → fldsWF fs = true →
    (∀ f, f ∈ fs.toList →
      W.hasKey (fldFq dbN tbN f ++ "_branch") = f.relation.isRel) →
    (∀ k v, (genFields dbN tbN gid tid pref fs st).1.find? k = some v →
      W.find? k = some v) →
    uLeaves (unpackObj fields values
        (tvIter W (genFields dbN tbN gid tid pref fs st).1)) =
      (flatAux W (genFields dbN tbN gid tid pref fs st).1).map
        (fun cf => (cf.apiName, pyIndex values (lastMatchIdx fields cf.apiName)))
  | dbN, tbN, gid, tid, pref, .fnil, st, W, fields, values =>
    fun _ _ _ _ _ _ => by
    simp only [genFields, tvIter_nil, unpackObj, uLeaves, flatAux, List.map_nil]
  | dbN, tbN, gid, tid, pref, .fcons (.mk i nm ty nb ky df .norel) rest, st, W,
      fields, values => fun hdb htb hnd hwf hW hsub => by
    obtain ⟨⟨h1, h2⟩, h3⟩ :
        (strContains nm "_branch" = false ∧ relWF RelOpt.norel = true) ∧
        fldsWF rest = true := by
      simpa [fldsWF, Bool.and_eq_true, Bool.not_eq_true'] using hwf
    obtain ⟨hnotin, hnd2⟩ := nodupStr_cons
      (show nodupStr (nm :: fieldNames rest) = true by
        simpa [fieldNames, Fld.name] using hnd)
    have hfq : strContains
        (fldFq dbN tbN (Fld.mk i nm ty nb ky df RelOpt.norel)) "_branch" =
        false := by
      simpa [fldFq, Fld.name] using fq_not_contains dbN tbN nm hdb htb h1
    have hhk : W.hasKey
        (fldFq dbN tbN (Fld.mk i nm ty nb ky df RelOpt.norel) ++ "_branch") =
        false := by
      have := hW (Fld.mk i nm ty nb ky df RelOpt.norel) (by simp [FldList.toList])
      simpa [Fld.relation, RelOpt.isRel] using this
    have hWr : ∀ f, f ∈ rest.toList →
        W.hasKey (fldFq dbN tbN f ++ "_branch") = f.relation.isRel := fun f hf =>
      hW f (by simp only [FldList.toList]; exact List.mem_cons_of_mem _ hf)
    have hsubr : ∀ k v,
        (genFields dbN tbN gid tid pref rest st).1.find? k = some v →
        W.find? k = some v := by
      intro k v h
      have hkmem : k ∈ levelKeys dbN tbN rest := by
        rw [← genFields_keys dbN tbN gid tid pref rest st]
        exact model_find_some_mem_keys _ k v h
      have hk1 : fldFq dbN tbN (Fld.mk i nm ty nb ky df RelOpt.norel) ≠ k :=
        fun he => not_mem_levelKeys_plain dbN tbN nm h1 rest h3 hnotin
          (by rw [show (dbN ++ "." ++ tbN ++ "." ++ nm) = k from he]
              exact hkmem)
      apply hsub k v
      simp only [genFields, Model.find?]
      rw [if_neg (by simp [beq_iff_eq]; exact hk1)]
      exact h
    have ihT := types_level dbN tbN gid tid pref rest st W fields values
      hdb htb hnd2 h3 hWr hsubr
    simp only [genFields, tvIter_cons, hfq, hhk, Bool.not_false, Bool.and_self,
      if_true, unpackObj, uLeaves, flatAux, List.singleton_append,
      List.map_cons]
    rw [ihT]
  | dbN, tbN, gid, tid, pref,
      .fcons (.mk i nm ty nb ky df (.rel rn rt)) rest, st, W, fields, values =>
    fun hdb htb hnd hwf hW hsub => by
    obtain ⟨⟨h1, h2⟩, h3⟩ :
        (strContains nm "_branch" = false ∧ relWF (RelOpt.rel rn rt) = true) ∧
        fldsWF rest = true := by
      simpa [fldsWF, Bool.and_eq_true, Bool.not_eq_true'] using hwf
    have htwf : tblWF rt = true := by simpa [relWF] using h2
    obtain ⟨hnotin, hnd2⟩ := nodupStr_cons
      (show nodupStr (nm :: fieldNames rest) = true by
        simpa [fieldNames, Fld.name] using hnd)
    have hfq : strContains
        (fldFq dbN tbN (Fld.mk i nm ty nb ky df (RelOpt.rel rn rt)))
          "_branch" = false := by
      simpa [fldFq, Fld.name] using fq_not_contains dbN tbN nm hdb htb h1
    have hhk : W.hasKey
        (fldFq dbN tbN (Fld.mk i nm ty nb ky df (RelOpt.rel rn rt)) ++
          "_branch") = true := by
      have := hW (Fld.mk i nm ty nb ky df (RelOpt.rel rn rt))
        (by simp [FldList.toList])
      simpa [Fld.relation, RelOpt.isRel] using this
    have hbr : strContains
        (fldFq dbN tbN (Fld.mk i nm ty nb ky df (RelOpt.rel rn rt)) ++
          "_branch") "_branch" = true := strContains_append_suffix _ _
    have hWr : ∀ f, f ∈ rest.toList →
        W.hasKey (fldFq dbN tbN f ++ "_branch") = f.relation.isRel := fun f hf =>
      hW f (by simp only [FldList.toList]; exact List.mem_cons_of_mem _ hf)
    have hbneq : (fldFq dbN tbN (Fld.mk i nm ty nb ky df (RelOpt.rel rn rt)) ==
        fldFq dbN tbN (Fld.mk i nm ty nb ky df (RelOpt.rel rn rt)) ++
          "_branch") = false :=
      beq_eq_false_iff_ne.mpr (str_ne_append_branch _)
    have hfind : W.find?
        (fldFq dbN tbN (Fld.mk i nm ty nb ky df (RelOpt.rel rn rt)) ++
          "_branch") = some (.br (branchRel
            ((mkCField dbN tbN gid tid pref
              (Fld.mk i nm ty nb ky df (RelOpt.rel rn rt))).apiName ++ "_") rt
            { st with joins := st.joins ++
              [tid ++ "." ++
                (Fld.mk i nm ty nb ky df (RelOpt.rel rn rt)).name ++
                " = t" ++ toString (st.tables.length + 1) ++ "." ++ rn] }).1) := by
      apply hsub
      simp only [genFields, Model.find?]
      rw [if_neg (by simp [hbneq])]
      rw [if_pos (by simp)]
    have hlk := tvLookup_eq_of_find W _ _ hfind
    have bhT := types_tbl
      ((mkCField dbN tbN gid tid pref
        (Fld.mk i nm ty nb ky df (RelOpt.rel rn rt))).apiName ++ "_") rt
      { st with joins := st.joins ++
        [tid ++ "." ++ (Fld.mk i nm ty nb ky df (RelOpt.rel rn rt)).name ++
          " = t" ++ toString (st.tables.length + 1) ++ "." ++ rn] }
      fields values htwf
    have hsubr : ∀ k v,
        (genFields dbN tbN gid tid pref rest
          (branchRel ((mkCField dbN tbN gid tid pref
            (Fld.mk i nm ty nb ky df (RelOpt.rel rn rt))).apiName ++ "_") rt
            { st with joins := st.joins ++
              [tid ++ "." ++
                (Fld.mk i nm ty nb ky df (RelOpt.rel rn rt)).name ++
                " = t" ++ toString (st.tables.length + 1) ++ "." ++
                rn] }).2).1.find? k = some v →
        W.find? k = some v := by
      intro k v h
      have hkmem : k ∈ levelKeys dbN tbN rest := by
        rw [← genFields_keys dbN tbN gid tid pref rest _]
        exact model_find_some_mem_keys _ k v h
      have hk1 : fldFq dbN tbN (Fld.mk i nm ty nb ky df (RelOpt.rel rn rt)) ≠
          k := fun he =>
        not_mem_levelKeys_plain dbN tbN nm h1 rest h3 hnotin
          (by rw [show (dbN ++ "." ++ tbN ++ "." ++ nm) = k from he]
              exact hkmem)
      have hk2 : fldFq dbN tbN (Fld.mk i nm ty nb ky df (RelOpt.rel rn rt)) ++
          "_branch" ≠ k := fun he =>
        not_mem_levelKeys_branch dbN tbN nm rest h3 hnotin
          (by rw [show ((dbN ++ "." ++ tbN ++ "." ++ nm) ++ "_branch") = k
                from he]
              exact hkmem)
      apply hsub k v
      simp only [genFields, Model.find?]
      rw [if_neg (by simp [beq_iff_eq]; exact hk1)]
      rw [if_neg (by simp [beq_iff_eq]; exact hk2)]
      exact h
    have ihT := types_level dbN tbN gid tid pref rest
      (branchRel ((mkCField dbN tbN gid tid pref
        (Fld.mk i nm ty nb ky df (RelOpt.rel rn rt))).apiName ++ "_") rt
        { st with joins := st.joins ++
          [tid ++ "." ++ (Fld.mk i nm ty nb ky df (RelOpt.rel rn rt)).name ++
            " = t" ++ toString (st.tables.length + 1) ++ "." ++ rn] }).2 W
      fields values hdb htb hnd2 h3 hWr hsubr
    simp only [genFields, tvIter_cons, hfq, hhk, hbr, Bool.not_false,
      Bool.not_true, Bool.and_false, Bool.false_and, Bool.false_eq_true,
      if_false, if_true, unpackObj, uLeaves, flatAux, List.nil_append,
      List.map_append, hlk]
    rw [bhT, ihT]

theorem types_tbl : ∀ (pref : String) (rt : Tbl) (st : GenState)
    (fields : List CField) (values : List Int),
    tblWF rt = true →
    uLeaves (unpackObj fields values
        (tvIter (branchRel pref rt st).1 (branchRel pref rt st).1)) =
      (flatAux (branchRel pref rt st).1 (branchRel pref rt st).1).map
        (fun cf => (cf.apiName, pyIndex values (lastMatchIdx fields cf.apiName)))
  | pref, .mk dbN tbN gid fs, st, fields, values => fun hwf => by
    obtain ⟨⟨⟨hdb, htb⟩, hnd⟩, hflds⟩ :
        ((strContains dbN "_branch" = false ∧
          strContains tbN "_branch" = false) ∧
          nodupStr (fieldNames fs) = true) ∧ fldsWF fs = true := by
      simpa [tblWF, Bool.and_eq_true, Bool.not_eq_true'] using hwf
    have hW : ∀ f, f ∈ fs.toList →
        (genFields dbN tbN gid ("t" ++ toString (st.tables.length + 1)) pref fs
          { st with tables := st.tables ++
            [⟨dbN ++ "." ++ tbN, "t" ++ toString (st.tables.length + 1),
              gid⟩] }).1.hasKey
          (fldFq dbN tbN f ++ "_branch") = f.relation.isRel := fun f hf =>
      genFields_hasKey_branch dbN tbN gid _ pref fs _ f hflds hnd hf
    simp only [branchRel]
    exact types_level dbN tbN gid ("t" ++ toString (st.tables.length + 1))
      pref fs
      { st with tables := st.tables ++
        [⟨dbN ++ "." ++ tbN, "t" ++ toString (st.tables.length + 1), gid⟩] }
      _ fields values hdb htb hnd hflds hW (fun _ _ h => h)

end

theorem get_sql_parts_cols (c : APIContext) :
    get_sql_parts c =
      sqlFromColumns ((flat_fields c).map (fun f => f.sqlName))
        c.tables c.joins := by
  simp only [get_sql_parts, sqlFromColumns, List.map_map, Function.comp_def]

theorem lastMatchIdxAux_no_match (key : String) :
    ∀ (fs : List CField) (i0 : Nat) (acc : Int),
    (∀ f, f ∈ fs → f.apiName ≠ key) → lastMatchIdxAux key i0 acc fs = acc
  | [], i0, acc, _ => rfl
  | f :: rest, i0, acc, h => by
    simp only [lastMatchIdxAux]
    rw [if_neg (by simp only [beq_iff_eq]
                   exact h f (List.mem_cons_self f rest))]
    exact lastMatchIdxAux_no_match key rest (i0 + 1) acc
      (fun g hg => h g (List.mem_cons_of_mem f hg))

theorem lastMatchIdxAux_nodup :
    ∀ (fs : List CField) (i0 : Nat) (acc : Int) (i : Nat) (h : i < fs.length),
    ((fs.map (fun cf => cf.apiName)).Nodup) →
    lastMatchIdxAux ((fs.get ⟨i, h⟩).apiName) i0 acc fs = (i0 : Int) + i
  | f :: rest, i0, acc, 0, h, hnd => by
    have hget : ((f :: rest).get ⟨0, h⟩) = f := rfl
    rw [hget]
    simp only [lastMatchIdxAux]
    have hnotin : ¬ f.apiName ∈ rest.map (fun cf => cf.apiName) :=
      (List.nodup_cons.mp (by simpa using hnd)).1
    rw [if_pos (by simp)]
    rw [lastMatchIdxAux_no_match f.apiName rest (i0 + 1) i0
      (fun g hg he => hnotin (he ▸ List.mem_map_of_mem _ hg))]
    simp
  | f :: rest, i0, acc, j + 1, h, hnd => by
    have hget : ((f :: rest).get ⟨j + 1, h⟩) =
        rest.get ⟨j, by simpa using h⟩ := rfl
    rw [hget]
    simp only [lastMatchIdxAux]
    have hnotin : ¬ f.apiName ∈ rest.map (fun cf => cf.apiName) :=
      (List.nodup_cons.mp (by simpa using hnd)).1
    have hkey : (rest.get ⟨j, by simpa using h⟩).apiName ∈
        rest.map (fun cf => cf.apiName) :=
      List.mem_map_of_mem _ (rest.get_mem _ _)
    rw [if_neg (by simp only [beq_iff_eq]
                   exact fun he => hnotin (he ▸ hkey))]
    rw [lastMatchIdxAux_nodup rest (i0 + 1) acc j (by simpa using h)
      (List.nodup_cons.mp (by simpa using hnd)).2]
    push_cast
    ring

theorem lastMatchIdx_nodup (fs : List CField)
    (hnd : (fs.map (fun cf => cf.apiName)).Nodup) (i : Nat)
    (h : i < fs.length) :
    lastMatchIdx fs ((fs.get ⟨i, h⟩).apiName) = (i : Int) := by
  have := lastMatchIdxAux_nodup fs 0 (-1) i h hnd
  simpa [lastMatchIdx] using this

theorem flat_map_enum (values : List Int) (fs : List CField)
    (hnd : (fs.map (fun cf => cf.apiName)).Nodup) :
    fs.map (fun cf =>
        (cf.apiName, pyIndex values (lastMatchIdx fs cf.apiName))) =
      fs.enum.map (fun p => (p.2.apiName, pyIndex values (p.1 : Int))) := by
  apply List.ext_getElem
  · simp [List.enum_length]
  · intro i h1 h2
    simp only [List.getElem_map, List.getElem_enum]
    have hlen : i < fs.length := by simpa using h1
    have hidx := lastMatchIdx_nodup fs hnd i hlen
    simp only [List.get_eq_getElem] at hidx
    rw [hidx]

/-- C2 counterexample: the claim asserts `flat_fields` yields *every*
non-branch field, including a foreign-key field with a sibling `_branch`
subtree.  In the compiled `shop.orders` context the model stores the
foreign-key field `customer_id` under the plain key
`shop.orders.customer_id` (a non-branch entry), yet `flat_fields` yields no
field named `customer_id`: the walk's `not model[key + '_branch'] in model`
test skips every branch-triggering foreign-key field. -/
theorem c2_flat_counterexample :
    ordersCtx.model.find? "shop.orders.customer_id" =
      some (.fld (mkCField "shop" "orders" "ord-uuid-1" "t1" ""
        (.mk 1 "customer_id" "varchar(32)" false "MUL" false
          (.rel "id" customersTbl)))) ∧
    ((flat_fields ordersCtx).map (fun f => f.name)).contains "customer_id" =
      false :=
  ⟨rfl, rfl⟩

/-- C2 (amended): for a well-formed schema tree (no name contains
`_branch`, per-table field names duplicate-free) whose flattened display
names are duplicate-free, `flat_fields` returns exactly the spec-side order
`specFlatRoot` — every non-branch field *except* the branch-triggering
foreign-key fields, in insertion order, each branch's fields placed
recursively at the position of their (omitted) trigger; this list's
`sql_name`s are exactly the SELECT column list of `get_sql_parts`, and for
every result row the depth-first leaves of `unpack_single` are these
fields' display names paired with the row values at their list
positions. -/
theorem c2_flat_order_amended (t : Tbl) (hwf : tblWF t = true)
    (hnd : ((specFlatRoot t).map (fun cf => cf.apiName)).Nodup) :
    flat_fields (mkContext t) = specFlatRoot t ∧
    get_sql_parts (mkContext t) =
      sqlFromColumns ((specFlatRoot t).map (fun cf => cf.sqlName))
        (mkContext t).tables (mkContext t).joins ∧
    ∀ values : List Int,
      uLeaves (unpack_single (mkContext t) values) =
        (specFlatRoot t).enum.map
          (fun p => (p.2.apiName, pyIndex values (p.1 : Int))) := by
  cases t with
  | mk dbN tbN gid fs =>
    obtain ⟨⟨⟨hdb, htb⟩, hndf⟩, hflds⟩ :
        ((strContains dbN "_branch" = false ∧
          strContains tbN "_branch" = false) ∧
          nodupStr (fieldNames fs) = true) ∧ fldsWF fs = true := by
      simpa [tblWF, Bool.and_eq_true, Bool.not_eq_true'] using hwf
    have hW : ∀ f, f ∈ fs.toList →
        (genFields dbN tbN gid "t1" "" fs
          { tables := [⟨dbN ++ "." ++ tbN, "t1", gid⟩], joins := [] }).1.hasKey
          (fldFq dbN tbN f ++ "_branch") = f.relation.isRel := fun f hf =>
      genFields_hasKey_branch dbN tbN gid "t1" "" fs _ f hflds hndf hf
    obtain ⟨a1, _⟩ := flat_level dbN tbN gid "t1" "" fs
      { tables := [⟨dbN ++ "." ++ tbN, "t1", gid⟩], joins := [] }
      (genFields dbN tbN gid "t1" "" fs
        { tables := [⟨dbN ++ "." ++ tbN, "t1", gid⟩], joins := [] }).1
      hdb htb hflds hW
    simp only [List.length_cons, List.length_nil, Nat.zero_add] at a1
    have haM : flatAux
        (genFields dbN tbN gid "t1" "" fs
          { tables := [⟨dbN ++ "." ++ tbN, "t1", gid⟩], joins := [] }).1
        (genFields dbN tbN gid "t1" "" fs
          { tables := [⟨dbN ++ "." ++ tbN, "t1", gid⟩], joins := [] }).1 =
        specFlatRoot (Tbl.mk dbN tbN gid fs) := by
      simp only [specFlatRoot]
      exact a1
    have ha : flat_fields (mkContext (Tbl.mk dbN tbN gid fs)) =
        specFlatRoot (Tbl.mk dbN tbN gid fs) := by
      simp only [mkContext, flat_fields]
      exact haM
    refine ⟨ha, ?_, ?_⟩
    · rw [get_sql_parts_cols, ha]
    · intro values
      have hty := types_level dbN tbN gid "t1" "" fs
        { tables := [⟨dbN ++ "." ++ tbN, "t1", gid⟩], joins := [] }
        (genFields dbN tbN gid "t1" "" fs
          { tables := [⟨dbN ++ "." ++ tbN, "t1", gid⟩], joins := [] }).1
        (specFlatRoot (Tbl.mk dbN tbN gid fs)) values
        hdb htb hndf hflds hW (fun _ _ h => h)
      rw [haM, flat_map_enum values (specFlatRoot (Tbl.mk dbN tbN gid fs)) hnd]
        at hty
      simp only [unpack_single, types_view]
      rw [ha]
      simp only [mkContext]
      exact hty

/-- Witness for the amended C2 at the `shop.orders` schema: its context is
well-formed, flattened display names are duplicate-free, and the flattening
equals the spec-side order. -/
theorem c2_flat_order_amended_witness :
    tblWF ordersTbl = true ∧
    ((specFlatRoot ordersTbl).map (fun cf => cf.apiName)).Nodup ∧
    flat_fields (mkContext ordersTbl) = specFlatRoot ordersTbl :=
  ⟨by decide, by decide,
    (c2_flat_order_amended ordersTbl (by decide) (by decide)).1⟩

end APInFly
